import Mathlib

/-!
# Verification of the quality-agent webhook ingestion core

Shallow embedding of the webhook receiver pipeline of the quality-agent
repository: HMAC-SHA256 signature verification (`app/webhook_receiver.py`),
audit logging (`app/webhook_audit.py`), payload validation
(`models/github.py`), and event routing (`app/webhook_receiver.py`).

Modelling conventions:
* Python `bytes` are `List Nat` (each element a byte value `< 256`).
* Python `str` is `String` or `List Char` (Lean `Char` is a Unicode scalar
  value, as in Python); `str.encode("utf-8")` is modelled by `utf8Bytes`.
* Machine words are `Nat` with explicit `% 2^32` reductions.
* `hmac.compare_digest` is modelled functionally as equality (its
  constant-time execution is a timing property outside the embedding).
-/

namespace Sha

/-- `2^32`, the word modulus of SHA-256. -/
def M32 : Nat := 4294967296

/-- 32-bit modular addition. -/
def add32 (a b : Nat) : Nat := (a + b) % M32

/-- 32-bit right rotation by `n` of a word `x < 2^32`. -/
def rotr (n x : Nat) : Nat := ((x >>> n) ||| (x <<< (32 - n))) % M32

/-- Logical right shift. -/
def shr (n x : Nat) : Nat := x >>> n

/-- SHA-256 big sigma 0. -/
def bsig0 (x : Nat) : Nat := (rotr 2 x) ^^^ (rotr 13 x) ^^^ (rotr 22 x)

/-- SHA-256 big sigma 1. -/
def bsig1 (x : Nat) : Nat := (rotr 6 x) ^^^ (rotr 11 x) ^^^ (rotr 25 x)

/-- SHA-256 small sigma 0. -/
def ssig0 (x : Nat) : Nat := (rotr 7 x) ^^^ (rotr 18 x) ^^^ (shr 3 x)

/-- SHA-256 small sigma 1. -/
def ssig1 (x : Nat) : Nat := (rotr 17 x) ^^^ (rotr 19 x) ^^^ (shr 10 x)

/-- SHA-256 choice function (`¬x` is xor against the 32-bit mask). -/
def ch (x y z : Nat) : Nat := (x &&& y) ^^^ ((x ^^^ 4294967295) &&& z)

/-- SHA-256 majority function. -/
def maj (x y z : Nat) : Nat := (x &&& y) ^^^ (x &&& z) ^^^ (y &&& z)

/-- The 64 SHA-256 round constants. -/
def K : List Nat :=
  [1116352408, 1899447441, 3049323471, 3921009573, 961987163, 1508970993,
   2453635748, 2870763221, 3624381080, 310598401, 607225278, 1426881987,
   1925078388, 2162078206, 2614888103, 3248222580, 3835390401, 4022224774,
   264347078, 604807628, 770255983, 1249150122, 1555081692, 1996064986,
   2554220882, 2821834349, 2952996808, 3210313671, 3336571891, 3584528711,
   113926993, 338241895, 666307205, 773529912, 1294757372, 1396182291,
   1695183700, 1986661051, 2177026350, 2456956037, 2730485921, 2820302411,
   3259730800, 3345764771, 3516065817, 3600352804, 4094571909, 275423344,
   430227734, 506948616, 659060556, 883997877, 958139571, 1322822218,
   1537002063, 1747873779, 1955562222, 2024104815, 2227730452, 2361852424,
   2428436474, 2756734187, 3204031479, 3329325298]

/-- SHA-256 working state: eight 32-bit words. -/
structure Hash where
  a : Nat
  b : Nat
  c : Nat
  d : Nat
  e : Nat
  f : Nat
  g : Nat
  h : Nat

/-- SHA-256 initial hash value. -/
def H0 : Hash :=
  ⟨1779033703, 3144134277, 1013904242, 2773480762,
   1359893119, 2600822924, 528734635, 1541459225⟩

/-- Extend the message schedule; `l` is the schedule built so far, most
recent word first; `n` more words are appended. -/
def sched : List Nat → Nat → List Nat
  | l, 0 => l
  | l, n + 1 =>
      let w := add32 (add32 (ssig1 (l.getD 1 0)) (l.getD 6 0))
                     (add32 (ssig0 (l.getD 14 0)) (l.getD 15 0))
      sched (w :: l) n

/-- One SHA-256 round over the working state with round constant `k` and
schedule word `w`. -/
def round (st : Hash) (k w : Nat) : Hash :=
  let t1 := add32 (add32 (add32 st.h (bsig1 st.e)) (add32 (ch st.e st.f st.g) k)) w
  let t2 := add32 (bsig0 st.a) (maj st.a st.b st.c)
  ⟨add32 t1 t2, st.a, st.b, st.c, add32 st.d t1, st.e, st.f, st.g⟩

/-- Big-endian decoding of four bytes into a 32-bit word. -/
def word (b0 b1 b2 b3 : Nat) : Nat := ((b0 * 256 + b1) * 256 + b2) * 256 + b3

/-- Split a 64-byte block into sixteen big-endian 32-bit words. -/
def blockWords : List Nat → List Nat
  | b0 :: b1 :: b2 :: b3 :: rest => word b0 b1 b2 b3 :: blockWords rest
  | _ => []

/-- Compress one 64-byte block into the running hash. -/
def compress (st : Hash) (block : List Nat) : Hash :=
  let ws := (sched (blockWords block).reverse 48).reverse
  let r := (K.zip ws).foldl (fun s kw => round s kw.1 kw.2) st
  ⟨add32 st.a r.a, add32 st.b r.b, add32 st.c r.c, add32 st.d r.d,
   add32 st.e r.e, add32 st.f r.f, add32 st.g r.g, add32 st.h r.h⟩

/-- The bit length of the message encoded as eight big-endian bytes. -/
def lenBytes (n : Nat) : List Nat :=
  [n >>> 56 % 256, n >>> 48 % 256, n >>> 40 % 256, n >>> 32 % 256,
   n >>> 24 % 256, n >>> 16 % 256, n >>> 8 % 256, n % 256]

/-- SHA-256 padding: append `0x80`, zeros to 56 mod 64, then the 64-bit
big-endian bit length. -/
def pad (msg : List Nat) : List Nat :=
  let len := msg.length
  let zeros := (119 - len % 64) % 64
  msg ++ 128 :: List.replicate zeros 0 ++ lenBytes (len * 8)

/-- Split a byte list into 64-byte chunks (fuel-indexed for structural
recursion; fuel `≥ length` always suffices). -/
def chunks64 : Nat → List Nat → List (List Nat)
  | 0, _ => []
  | _, [] => []
  | n + 1, l => l.take 64 :: chunks64 n (l.drop 64)

/-- Big-endian encoding of a 32-bit word as four bytes. -/
def wordBytes (w : Nat) : List Nat :=
  [w >>> 24 % 256, w >>> 16 % 256, w >>> 8 % 256, w % 256]

/-- SHA-256 digest (32 bytes) of a byte message. -/
def sha256 (msg : List Nat) : List Nat :=
  let p := pad msg
  let fin := (chunks64 (p.length + 1) p).foldl compress H0
  [fin.a, fin.b, fin.c, fin.d, fin.e, fin.f, fin.g, fin.h].flatMap wordBytes

/-- HMAC-SHA256 (RFC 2104) of `msg` keyed by `key`, both byte lists. -/
def hmacSha256 (key msg : List Nat) : List Nat :=
  let k0 := if 64 < key.length then sha256 key else key
  let k1 := k0 ++ List.replicate (64 - k0.length) 0
  let ipadKey := k1.map (fun b => b ^^^ 0x36)
  let opadKey := k1.map (fun b => b ^^^ 0x5c)
  sha256 (opadKey ++ sha256 (ipadKey ++ msg))

/-- UTF-8 encoding of one Unicode scalar value, as in `str.encode("utf-8")`. -/
def utf8EncodeChar (c : Char) : List Nat :=
  let n := c.toNat
  if n < 128 then [n]
  else if n < 2048 then [192 ||| (n >>> 6), 128 ||| (n &&& 63)]
  else if n < 65536 then
    [224 ||| (n >>> 12), 128 ||| ((n >>> 6) &&& 63), 128 ||| (n &&& 63)]
  else
    [240 ||| (n >>> 18), 128 ||| ((n >>> 12) &&& 63),
     128 ||| ((n >>> 6) &&& 63), 128 ||| (n &&& 63)]

/-- UTF-8 encoding of a string given as a character list. -/
def utf8Bytes (s : List Char) : List Nat := s.flatMap utf8EncodeChar

/-- Lowercase hexadecimal digit for `d < 16`. -/
def hexDigitChar (d : Nat) : Char :=
  if d < 10 then Char.ofNat (48 + d) else Char.ofNat (87 + d)

/-- Two lowercase hex characters for one byte. -/
def byteToHexChars (b : Nat) : List Char := [hexDigitChar (b / 16), hexDigitChar (b % 16)]

/-- Lowercase hex rendering of a byte list, as Python `.hexdigest()`. -/
def bytesToHex (bs : List Nat) : List Char := bs.flatMap byteToHexChars

/-- `hmac.new(key=secret.encode("utf-8"), msg=payload, digestmod=hashlib.sha256).hexdigest()`. -/
def hmacHex (secret : List Char) (payload : List Nat) : List Char :=
  bytesToHex (hmacSha256 (utf8Bytes secret) payload)

end Sha

namespace WebhookReceiver

open Sha

/-- The literal `"sha256="` as a character list. -/
def sigMark : List Char := ['s', 'h', 'a', '2', '5', '6', '=']

/-- Model of `hmac.compare_digest` restricted to ASCII `str` operands
(such as hexdigests), where it is total: functionally, equality of the
two strings. The full behaviour, including the `TypeError` raised on a
non-ASCII operand, is `compare_digestE` below. -/
def compare_digest (a b : List Char) : Bool := a == b

/-- ASCII-only test: CPython's `hmac.compare_digest` accepts `str`
operands only when both are ASCII. -/
def isAsciiStr (s : List Char) : Bool := s.all (fun c => c.toNat < 128)

/-- Full model of `hmac.compare_digest` on `str` operands: it raises
`TypeError` unless both strings are ASCII-only, and otherwise compares
them in constant time (functionally, equality). -/
def compare_digestE (a b : List Char) : Except String Bool :=
  if isAsciiStr a && isAsciiStr b then .ok (a == b) else .error "TypeError"

/-- `verify_github_signature` from `app/webhook_receiver.py` (lines 33-87),
on inputs where the comparison cannot raise: reject unless the header
starts with `"sha256="`, else strip the first 7 characters and compare
against the HMAC-SHA256 hexdigest of the payload keyed by the UTF-8
encoded secret. -/
def verify_github_signature (payload_body : List Nat) (signature_header : List Char)
    (secret : List Char) : Bool :=
  if ¬ sigMark.isPrefixOf signature_header then false
  else
    let received_signature := signature_header.drop 7
    let expected_signature := hmacHex secret payload_body
    compare_digest received_signature expected_signature

/-- `verify_github_signature` with `hmac.compare_digest`'s exception
behaviour made explicit: `.error "TypeError"` models the `TypeError`
escaping the function when the signature part after `"sha256="` is not
ASCII (reachable, since Starlette decodes header bytes as latin-1). -/
def verify_github_signatureE (payload_body : List Nat) (signature_header : List Char)
    (secret : List Char) : Except String Bool :=
  if ¬ sigMark.isPrefixOf signature_header then .ok false
  else
    let received_signature := signature_header.drop 7
    let expected_signature := hmacHex secret payload_body
    compare_digestE received_signature expected_signature

/-- Whether the control flow of `verify_github_signature` reaches the
hash-computing expression `hmac.new(...)`: it does exactly when the early
`startswith` guard passes. -/
def verifyComputesHash (signature_header : List Char) : Bool :=
  if ¬ sigMark.isPrefixOf signature_header then false else true

/-- GitHub's signing side: the header `"sha256=" + HMAC-SHA256 hexdigest`. -/
def signPayload (payload_body : List Nat) (secret : List Char) : List Char :=
  sigMark ++ hmacHex secret payload_body

/-- Lowercase-hex-digit test, the character class `[0-9a-f]`. -/
def isLowerHexDigit (c : Char) : Bool :=
  (48 ≤ c.toNat && c.toNat ≤ 57) || (97 ≤ c.toNat && c.toNat ≤ 102)

/-- Modelled from the spec: the signature-header format regex
`^sha256=[0-9a-f]{64}$`. -/
def matchesSigFormat (header : List Char) : Bool :=
  sigMark.isPrefixOf header &&
  (header.drop 7).length == 64 &&
  (header.drop 7).all isLowerHexDigit

/-- A signature header reachable through Starlette's latin-1 header
decoding whose part after `"sha256="` is non-ASCII. -/
def nonAsciiHeader : List Char := sigMark ++ List.replicate 64 'é'

end WebhookReceiver

namespace Sha

/-- Every byte emitted by `wordBytes` is below 256. -/
theorem wordBytes_lt (w : Nat) : ∀ b ∈ wordBytes w, b < 256 := by
  intro b hb
  simp only [wordBytes, List.mem_cons, List.not_mem_nil, or_false] at hb
  rcases hb with h | h | h | h <;> subst h <;> exact Nat.mod_lt _ (by omega)

/-- Every byte of a SHA-256 digest is below 256. -/
theorem sha256_lt (msg : List Nat) : ∀ b ∈ sha256 msg, b < 256 := by
  intro b hb
  simp only [sha256, List.mem_flatMap] at hb
  obtain ⟨w, -, hw⟩ := hb
  exact wordBytes_lt w b hw

/-- A SHA-256 digest has 32 bytes. -/
theorem sha256_length (msg : List Nat) : (sha256 msg).length = 32 := by
  simp [sha256, wordBytes]

/-- `bytesToHex` yields two characters per byte. -/
theorem bytesToHex_length (bs : List Nat) : (bytesToHex bs).length = 2 * bs.length := by
  induction bs with
  | nil => simp [bytesToHex]
  | cons b bs ih =>
      simp only [bytesToHex, List.flatMap_cons] at *
      simp [byteToHexChars, ih]
      omega

/-- A HMAC-SHA256 hexdigest has 64 characters. -/
theorem hmacHex_length (secret : List Char) (payload : List Nat) :
    (hmacHex secret payload).length = 64 := by
  simp [hmacHex, bytesToHex_length, hmacSha256, sha256_length]

/-- Hex digits of values below 16 are lowercase hex characters. -/
theorem hexDigitChar_isLowerHex : ∀ d : Fin 16,
    WebhookReceiver.isLowerHexDigit (hexDigitChar d.val) = true := by decide

/-- Every character of a hexdigest is in the class `[0-9a-f]`. -/
theorem bytesToHex_all_hex (bs : List Nat) (hb : ∀ b ∈ bs, b < 256) :
    (bytesToHex bs).all WebhookReceiver.isLowerHexDigit = true := by
  induction bs with
  | nil => simp [bytesToHex]
  | cons b bs ih =>
      have hblt : b < 256 := hb b (List.mem_cons_self ..)
      simp only [bytesToHex, List.flatMap_cons, List.all_append, byteToHexChars,
        Bool.and_eq_true]
      constructor
      · refine List.all_eq_true.mpr ?_
        intro c hc
        simp only [List.mem_cons, List.not_mem_nil, or_false] at hc
        rcases hc with h | h <;> subst h
        · exact hexDigitChar_isLowerHex ⟨b / 16, by omega⟩
        · exact hexDigitChar_isLowerHex ⟨b % 16, Nat.mod_lt _ (by omega)⟩
      · exact ih (fun x hx => hb x (List.mem_cons_of_mem _ hx))

/-- Every character of a HMAC-SHA256 hexdigest is in the class `[0-9a-f]`. -/
theorem hmacHex_all_hex (secret : List Char) (payload : List Nat) :
    (hmacHex secret payload).all WebhookReceiver.isLowerHexDigit = true := by
  refine bytesToHex_all_hex _ ?_
  intro b hb
  exact sha256_lt _ b hb

end Sha

namespace WebhookReceiver

open Sha

/-- A HMAC hexdigest is ASCII-only, so `hmac.compare_digest` never raises
on it. -/
theorem hmacHex_isAscii (S : List Char) (P : List Nat) :
    isAsciiStr (hmacHex S P) = true := by
  have hall := List.all_eq_true.mp (hmacHex_all_hex S P)
  refine List.all_eq_true.mpr ?_
  intro c hc
  have h := hall c hc
  simp only [isLowerHexDigit, Bool.or_eq_true, Bool.and_eq_true,
    decide_eq_true_eq] at h
  simp only [decide_eq_true_eq]
  omega

/-- On headers whose part after `"sha256="` is ASCII -- in particular on
every header GitHub signs -- the exception-aware model agrees with the
boolean one: the comparison cannot raise. -/
theorem verifyE_eq_ok (P : List Nat) (S header : List Char)
    (h : isAsciiStr (header.drop 7) = true) :
    verify_github_signatureE P header S =
      .ok (verify_github_signature P header S) := by
  unfold verify_github_signatureE verify_github_signature
  by_cases hpre : sigMark.isPrefixOf header = true
  · rw [if_neg (by simp [hpre]), if_neg (by simp [hpre])]
    unfold compare_digestE compare_digest
    rw [if_pos (by simp [h, hmacHex_isAscii])]
  · have hpre' : sigMark.isPrefixOf header = false := Bool.eq_false_iff.mpr hpre
    rw [if_pos (by simp [hpre']), if_pos (by simp [hpre'])]

/-- Core characterisation: verifying any payload `Q` with secret `T` against
the header GitHub signs for payload `P` with secret `S` succeeds exactly when
the two HMAC hexdigests coincide. -/
theorem verify_signPayload (P Q : List Nat) (S T : List Char) :
    verify_github_signature Q (signPayload P S) T = true ↔
      hmacHex S P = hmacHex T Q := by
  unfold verify_github_signature signPayload
  have hpre : sigMark.isPrefixOf (sigMark ++ hmacHex S P) = true := by
    rw [List.isPrefixOf_iff_prefix]
    exact List.prefix_append _ _
  rw [if_neg (by simp [hpre])]
  have hdrop : (sigMark ++ hmacHex S P).drop 7 = hmacHex S P := by
    have h7 : (7 : Nat) = sigMark.length := rfl
    rw [h7, List.drop_left]
  simp [hdrop, compare_digest]

/-- Base-256 value of a byte list (little-endian positional encoding). -/
def natOfBytes : List Nat → Nat
  | [] => 0
  | b :: bs => b + 256 * natOfBytes bs

/-- `natOfBytes` is injective on equal-length lists of bytes. -/
theorem natOfBytes_inj : ∀ (a b : List Nat), a.length = b.length →
    (∀ x ∈ a, x < 256) → (∀ x ∈ b, x < 256) →
    natOfBytes a = natOfBytes b → a = b := by
  intro a
  induction a with
  | nil => intro b hlen _ _ _; cases b with
      | nil => rfl
      | cons y ys => simp at hlen
  | cons x xs ih =>
      intro b hlen ha hb hval
      cases b with
      | nil => simp at hlen
      | cons y ys =>
          simp only [natOfBytes] at hval
          have hx : x < 256 := ha x (List.mem_cons_self ..)
          have hy : y < 256 := hb y (List.mem_cons_self ..)
          have hxy : x = y ∧ natOfBytes xs = natOfBytes ys := by omega
          have htail : xs = ys := by
            refine ih ys (by simpa using hlen) ?_ ?_ hxy.2
            · exact fun z hz => ha z (List.mem_cons_of_mem _ hz)
            · exact fun z hz => hb z (List.mem_cons_of_mem _ hz)
          rw [hxy.1, htail]

/-- `natOfBytes` of a byte list is bounded by `256 ^ length`. -/
theorem natOfBytes_lt : ∀ (a : List Nat), (∀ x ∈ a, x < 256) →
    natOfBytes a < 256 ^ a.length := by
  intro a
  induction a with
  | nil => intro _; simp [natOfBytes]
  | cons x xs ih =>
      intro ha
      have hx : x < 256 := ha x (List.mem_cons_self ..)
      have ht := ih (fun z hz => ha z (List.mem_cons_of_mem _ hz))
      simp only [natOfBytes, List.length_cons, pow_succ]
      calc x + 256 * natOfBytes xs < 256 + 256 * natOfBytes xs := by omega
        _ ≤ 256 * (natOfBytes xs + 1) := by ring_nf; omega
        _ ≤ 256 * 256 ^ xs.length := by
              have : natOfBytes xs + 1 ≤ 256 ^ xs.length := ht
              exact Nat.mul_le_mul_left _ this
        _ = 256 ^ xs.length * 256 := by ring

/-- A HMAC-SHA256 digest has 32 bytes. -/
theorem hmacSha256_length (k m : List Nat) : (hmacSha256 k m).length = 32 := by
  simp only [hmacSha256]
  exact sha256_length _

/-- Every byte of a HMAC-SHA256 digest is below 256. -/
theorem hmacSha256_lt (k m : List Nat) : ∀ b ∈ hmacSha256 k m, b < 256 := by
  intro b hb
  simp only [hmacSha256] at hb
  exact sha256_lt _ b hb

/-- The HMAC digest bytes of the empty payload under the secret `'a' * n`. -/
def digestBytes (n : Nat) : List Nat :=
  hmacSha256 (utf8Bytes (List.replicate n 'a')) []

/-- The numeric value of `digestBytes`. -/
def digestNat (n : Nat) : Nat := natOfBytes (digestBytes n)

/-- `digestNat` is below `256 ^ 32`. -/
theorem digestNat_lt (n : Nat) : digestNat n < 256 ^ 32 := by
  have h := natOfBytes_lt _ (hmacSha256_lt (utf8Bytes (List.replicate n 'a')) [])
  rwa [hmacSha256_length] at h

/-- The HMAC digest of the empty payload under the secret `'a' * n`, packed
into a finite codomain (pigeonhole target). -/
def digestFin (n : Nat) : Fin (256 ^ 32) := ⟨digestNat n, digestNat_lt n⟩

end WebhookReceiver

namespace WebhookReceiver

open Sha

set_option maxHeartbeats 2000000 in
/-- C1 (counterexample): the clause "`verify(P, sign(P,S), S') = false` for
every `S' ≠ S`" of the claim is false: HMAC-SHA256 maps the infinitely many
secrets `'a' * n` into the finite space of 32-byte digests, so two distinct
secrets sign the empty payload identically and verification succeeds with the
wrong secret. This falsifies the claim's conjunction as stated. -/
theorem verify_wrong_secret_counterexample :
    ¬ ∀ (P : List Nat) (S Sp : List Char), Sp ≠ S →
        verify_github_signature P (signPayload P S) Sp = false := by
  intro hclaim
  obtain ⟨n, m, hnm, heq⟩ := Finite.exists_ne_map_eq_of_infinite digestFin
  simp only [digestFin, Fin.mk.injEq] at heq
  have hbytes : digestBytes n = digestBytes m := by
    refine natOfBytes_inj (digestBytes n) (digestBytes m) ?_ ?_ ?_ heq
    · show (hmacSha256 _ _).length = (hmacSha256 _ _).length
      rw [hmacSha256_length, hmacSha256_length]
    · exact hmacSha256_lt _ _
    · exact hmacSha256_lt _ _
  have hhex : hmacHex (List.replicate n 'a') [] = hmacHex (List.replicate m 'a') [] := by
    unfold hmacHex
    show bytesToHex (digestBytes n) = bytesToHex (digestBytes m)
    rw [hbytes]
  have hne : List.replicate m 'a' ≠ List.replicate n 'a' := by
    intro h
    apply hnm
    have := congrArg List.length h
    simpa using this.symm
  have htrue : verify_github_signature [] (signPayload [] (List.replicate n 'a'))
      (List.replicate m 'a') = true :=
    (verify_signPayload [] [] _ _).mpr hhex
  have hfalse := hclaim [] (List.replicate n 'a') (List.replicate m 'a') hne
  rw [htrue] at hfalse
  exact Bool.noConfusion hfalse

/-- C1 (amended): a correctly signed payload always verifies under the signing
secret; verification under another secret, or of another payload, succeeds
exactly when the corresponding HMAC-SHA256 hexdigest equals that of the signed
payload (so any secret change or payload tampering that changes the digest is
rejected -- a universal rejection guarantee is impossible because digests
collide). -/
theorem verify_sign_characterisation :
    (∀ (P : List Nat) (S : List Char),
        verify_github_signature P (signPayload P S) S = true) ∧
    (∀ (P : List Nat) (S Sp : List Char),
        verify_github_signature P (signPayload P S) Sp = true ↔
          hmacHex Sp P = hmacHex S P) ∧
    (∀ (P Pp : List Nat) (S : List Char),
        verify_github_signature Pp (signPayload P S) S = true ↔
          hmacHex S Pp = hmacHex S P) := by
  refine ⟨fun P S => (verify_signPayload P P S S).mpr rfl, ?_, ?_⟩
  · intro P S Sp
    rw [verify_signPayload P P S Sp]
    exact eq_comm
  · intro P Pp S
    rw [verify_signPayload P Pp S S]
    exact eq_comm

set_option maxRecDepth 100000 in
/-- C2 (counterexample): the header `"sha256=zz"` does not match
`^sha256=[0-9a-f]{64}$`, yet the control flow of `verify_github_signature`
reaches the hash computation, because the code only guards on the
`"sha256="` prefix; and the header `"sha256=" ++ 64 copies of a non-ASCII
character` does not match the regex yet verification does not return
`False` at all: `hmac.compare_digest` raises `TypeError` on it. -/
theorem malformed_header_computes_hash :
    (matchesSigFormat ("sha256=zz".data) = false ∧
     verifyComputesHash ("sha256=zz".data) = true) ∧
    (matchesSigFormat nonAsciiHeader = false ∧
     verify_github_signatureE [] nonAsciiHeader ("s".data) = .error "TypeError") := by
  refine ⟨⟨by decide, by decide⟩, by decide, rfl⟩

/-- C2 (amended): no signature header that fails the regex
`^sha256=[0-9a-f]{64}$` ever verifies, but the hash computation is
skipped only for headers failing the `"sha256="` prefix guard. A
prefixed malformed header with ASCII remainder computes the HMAC and
returns `False` from the digest comparison; one with a non-ASCII
remainder makes `hmac.compare_digest` raise `TypeError` instead of
returning `False`. -/
theorem malformed_header_rejected (P : List Nat) (S header : List Char)
    (h : matchesSigFormat header = false) :
    verify_github_signatureE P header S ≠ .ok true ∧
    (sigMark.isPrefixOf header = false →
      verify_github_signatureE P header S = .ok false ∧
      verifyComputesHash header = false) ∧
    (sigMark.isPrefixOf header = true →
      verifyComputesHash header = true ∧
      (isAsciiStr (header.drop 7) = true →
        verify_github_signatureE P header S = .ok false) ∧
      (isAsciiStr (header.drop 7) = false →
        verify_github_signatureE P header S = .error "TypeError")) := by
  have hnopre : sigMark.isPrefixOf header = false →
      verify_github_signatureE P header S = .ok false ∧
      verifyComputesHash header = false := by
    intro hpre'
    constructor
    · unfold verify_github_signatureE
      rw [if_pos (by simp [hpre'])]
    · unfold verifyComputesHash
      rw [if_pos (by simp [hpre'])]
  have hwithpre : sigMark.isPrefixOf header = true →
      verifyComputesHash header = true ∧
      (isAsciiStr (header.drop 7) = true →
        verify_github_signatureE P header S = .ok false) ∧
      (isAsciiStr (header.drop 7) = false →
        verify_github_signatureE P header S = .error "TypeError") := by
    intro hpre
    refine ⟨?_, ?_, ?_⟩
    · unfold verifyComputesHash
      rw [if_neg (by simp [hpre])]
    · intro hascii
      unfold verify_github_signatureE
      rw [if_neg (by simp [hpre])]
      unfold compare_digestE
      rw [if_pos (by simp [hascii, hmacHex_isAscii])]
      have hne : (header.drop 7 == hmacHex S P) = false := by
        refine beq_eq_false_iff_ne.mpr ?_
        intro hEq
        unfold matchesSigFormat at h
        rw [hpre, hEq, hmacHex_length, hmacHex_all_hex] at h
        simp at h
      rw [hne]
    · intro hascii
      unfold verify_github_signatureE
      rw [if_neg (by simp [hpre])]
      unfold compare_digestE
      rw [if_neg (by simp [hascii])]
  refine ⟨?_, hnopre, hwithpre⟩
  cases hpre : sigMark.isPrefixOf header with
  | false =>
      rw [(hnopre hpre).1]
      simp
  | true =>
      cases hascii : isAsciiStr (header.drop 7) with
      | true =>
          rw [((hwithpre hpre).2.1) hascii]
          simp
      | false =>
          rw [((hwithpre hpre).2.2) hascii]
          simp

/-- Witness for `malformed_header_rejected` at the concrete header
`"sha256=zz"`, empty payload and secret `"s"`. -/
theorem malformed_header_rejected_witness :
    matchesSigFormat ("sha256=zz".data) = false ∧
    verify_github_signatureE [] ("sha256=zz".data) ("s".data) ≠ .ok true ∧
    verify_github_signatureE [] ("sha256=zz".data) ("s".data) = .ok false := by
  have hm : matchesSigFormat ("sha256=zz".data) = false := by decide
  have h := malformed_header_rejected [] ("s".data) ("sha256=zz".data) hm
  exact ⟨hm, h.1, ((h.2.2 (by decide)).2.1) (by decide)⟩

end WebhookReceiver

namespace Jx

/-- JSON values as handled by `json.dumps` / `json.loads` in the audit
logger. Numbers are modelled as integers (the audit entries and webhook
payloads under verification carry no floats). -/
inductive Json where
  | null : Json
  | bool (b : Bool) : Json
  | num (n : Int) : Json
  | str (s : String) : Json
  | arr (elems : List Json) : Json
  | obj (members : List (String × Json)) : Json

/-- Decimal digit character. -/
def digitChar (d : Nat) : Char := Char.ofNat (48 + d)

/-- Decimal digits of `n`, most significant first (fuel-indexed; fuel `> n`
always suffices). -/
def natDigits : Nat → Nat → List Char
  | 0, _ => []
  | fuel + 1, n =>
      if n < 10 then [digitChar n]
      else natDigits fuel (n / 10) ++ [digitChar (n % 10)]

/-- Decimal rendering of a natural number. -/
def natDec (n : Nat) : List Char := natDigits (n + 1) n

/-- Decimal rendering of an integer, as Python `repr(int)`. -/
def intDec (i : Int) : List Char :=
  if i < 0 then '-' :: natDec i.natAbs else natDec i.toNat

/-- Four lowercase hex digits (`%04x`) for `n < 0x10000`. -/
def hex4 (n : Nat) : List Char :=
  [Sha.hexDigitChar (n / 4096 % 16), Sha.hexDigitChar (n / 256 % 16),
   Sha.hexDigitChar (n / 16 % 16), Sha.hexDigitChar (n % 16)]

/-- Escape one character as Python `json.dumps` does with the default
`ensure_ascii=True`: literal printable ASCII, two-character short escapes,
`\uXXXX` for other control/non-ASCII characters, surrogate pairs beyond
the BMP. -/
def escChar (c : Char) : List Char :=
  let n := c.toNat
  if c = '"' then ['\\', '"']
  else if c = '\\' then ['\\', '\\']
  else if n < 32 then
    if n = 8 then ['\\', 'b']
    else if n = 9 then ['\\', 't']
    else if n = 10 then ['\\', 'n']
    else if n = 12 then ['\\', 'f']
    else if n = 13 then ['\\', 'r']
    else '\\' :: 'u' :: hex4 n
  else if n < 128 then [c]
  else if n < 65536 then '\\' :: 'u' :: hex4 n
  else
    let v := n - 65536
    ('\\' :: 'u' :: hex4 (55296 + v / 1024)) ++ ('\\' :: 'u' :: hex4 (56320 + v % 1024))

/-- Escape a whole string body. -/
def escString (s : List Char) : List Char := s.flatMap escChar

/-- Serialisation of a string literal including the quotes. -/
def serStr (s : String) : List Char := '"' :: escString s.data ++ ['"']

/-- The serialised `null` literal. -/
def litNull : List Char := ['n', 'u', 'l', 'l']

/-- The serialised `true` literal. -/
def litTrue : List Char := ['t', 'r', 'u', 'e']

/-- The serialised `false` literal. -/
def litFalse : List Char := ['f', 'a', 'l', 's', 'e']

mutual

/-- `json.dumps` with its default separators `", "` and `": "`. -/
def serVal : Json → List Char
  | .null => litNull
  | .bool true => litTrue
  | .bool false => litFalse
  | .num n => intDec n
  | .str s => serStr s
  | .arr [] => ['[', ']']
  | .arr (e :: es) => '[' :: (serVal e ++ serElems es) ++ [']']
  | .obj [] => ['{', '}']
  | .obj ((k, v) :: ms) =>
      '{' :: (serStr k ++ ':' :: ' ' :: serVal v ++ serMembers ms) ++ ['}']

/-- Serialise the remaining array elements, each preceded by `", "`. -/
def serElems : List Json → List Char
  | [] => []
  | e :: es => ',' :: ' ' :: serVal e ++ serElems es

/-- Serialise the remaining object members, each preceded by `", "`. -/
def serMembers : List (String × Json) → List Char
  | [] => []
  | (k, v) :: ms => ',' :: ' ' :: serStr k ++ ':' :: ' ' :: serVal v ++ serMembers ms

end

/-- JSON whitespace. -/
def isWsChar (c : Char) : Bool := c = ' ' || c = '\t' || c = '\n' || c = '\r'

/-- Drop leading whitespace. -/
def skipWs : List Char → List Char
  | [] => []
  | c :: cs => if isWsChar c then skipWs cs else c :: cs

/-- Decimal digit test. -/
def isDigitChar (c : Char) : Bool := 48 ≤ c.toNat && c.toNat ≤ 57

/-- Value of a hex digit character. -/
def hexVal (c : Char) : Option Nat :=
  if 48 ≤ c.toNat && c.toNat ≤ 57 then some (c.toNat - 48)
  else if 97 ≤ c.toNat && c.toNat ≤ 102 then some (c.toNat - 87)
  else if 65 ≤ c.toNat && c.toNat ≤ 70 then some (c.toNat - 55)
  else none

/-- Maximal run of decimal digits and the remaining input. -/
def takeDigits : List Char → List Char × List Char
  | [] => ([], [])
  | c :: cs =>
      if isDigitChar c then
        let p := takeDigits cs
        (c :: p.1, p.2)
      else ([], c :: cs)

/-- Numeric value of a digit run. -/
def decValue (ds : List Char) : Nat :=
  ds.foldl (fun a c => 10 * a + (c.toNat - 48)) 0

/-- Parse a JSON string body after the opening quote, consuming the closing
quote (fuel-indexed; one unit of fuel per produced character; surrogate-pair
escapes are recombined as `json.loads` does). -/
def parseStringBody : Nat → List Char → Option (List Char × List Char)
  | 0, _ => none
  | _, [] => none
  | fuel + 1, c :: cs =>
    if c = '"' then some ([], cs)
    else if c = '\\' then
      match cs with
      | [] => none
      | e :: cs1 =>
        if e = 'u' then
          match cs1 with
          | h1 :: h2 :: h3 :: h4 :: rest =>
            match hexVal h1, hexVal h2, hexVal h3, hexVal h4 with
            | some d1, some d2, some d3, some d4 =>
              let code := ((d1 * 16 + d2) * 16 + d3) * 16 + d4
              if 55296 ≤ code ∧ code ≤ 56319 then
                match rest with
                | b1 :: b2 :: h5 :: h6 :: h7 :: h8 :: rest2 =>
                  if b1 = '\\' ∧ b2 = 'u' then
                    match hexVal h5, hexVal h6, hexVal h7, hexVal h8 with
                    | some e1, some e2, some e3, some e4 =>
                      let lo := ((e1 * 16 + e2) * 16 + e3) * 16 + e4
                      if 56320 ≤ lo ∧ lo ≤ 57343 then
                        (parseStringBody fuel rest2).map
                          (fun p => (Char.ofNat (65536 + (code - 55296) * 1024 + (lo - 56320)) :: p.1, p.2))
                      else none
                    | _, _, _, _ => none
                  else none
                | _ => none
              else if 56320 ≤ code ∧ code ≤ 57343 then none
              else (parseStringBody fuel rest).map (fun p => (Char.ofNat code :: p.1, p.2))
            | _, _, _, _ => none
          | _ => none
        else
          let esc : Option Char :=
            if e = '"' then some '"'
            else if e = '\\' then some '\\'
            else if e = '/' then some '/'
            else if e = 'b' then some (Char.ofNat 8)
            else if e = 'f' then some (Char.ofNat 12)
            else if e = 'n' then some '\n'
            else if e = 'r' then some '\r'
            else if e = 't' then some '\t'
            else none
          match esc with
          | some ec => (parseStringBody fuel cs1).map (fun p => (ec :: p.1, p.2))
          | none => none
    else if c.toNat < 32 then none
    else (parseStringBody fuel cs).map (fun p => (c :: p.1, p.2))

mutual

/-- Recursive-descent JSON value parser (fuel-indexed). -/
def parseVal : Nat → List Char → Option (Json × List Char)
  | 0, _ => none
  | fuel + 1, cs =>
    match skipWs cs with
    | [] => none
    | c :: rest =>
      if c = '{' then
        match skipWs rest with
        | [] => none
        | d :: rest1 =>
          if d = '}' then some (.obj [], rest1)
          else parseMembers fuel (d :: rest1)
      else if c = '[' then
        match skipWs rest with
        | [] => none
        | d :: rest1 =>
          if d = ']' then some (.arr [], rest1)
          else parseElems fuel (d :: rest1)
      else if c = '"' then
        (parseStringBody (rest.length + 1) rest).map
          (fun p => (.str (String.mk p.1), p.2))
      else if c = 't' then
        match rest with
        | 'r' :: 'u' :: 'e' :: r => some (.bool true, r)
        | _ => none
      else if c = 'f' then
        match rest with
        | 'a' :: 'l' :: 's' :: 'e' :: r => some (.bool false, r)
        | _ => none
      else if c = 'n' then
        match rest with
        | 'u' :: 'l' :: 'l' :: r => some (.null, r)
        | _ => none
      else if c = '-' then
        match takeDigits rest with
        | ([], _) => none
        | (ds, r) => some (.num (-(decValue ds : Int)), r)
      else if isDigitChar c then
        match takeDigits (c :: rest) with
        | ([], _) => none
        | (ds, r) => some (.num (decValue ds : Int), r)
      else none

/-- Parse the elements of a non-empty array, consuming the closing `]`. -/
def parseElems : Nat → List Char → Option (Json × List Char)
  | 0, _ => none
  | fuel + 1, cs =>
    match parseVal fuel cs with
    | none => none
    | some (e, r) =>
      match skipWs r with
      | ',' :: r2 =>
        match parseElems fuel r2 with
        | some (.arr es, r3) => some (.arr (e :: es), r3)
        | _ => none
      | ']' :: r2 => some (.arr [e], r2)
      | _ => none

/-- Parse the members of a non-empty object, consuming the closing brace. -/
def parseMembers : Nat → List Char → Option (Json × List Char)
  | 0, _ => none
  | fuel + 1, cs =>
    match skipWs cs with
    | '"' :: r0 =>
      match parseStringBody (r0.length + 1) r0 with
      | none => none
      | some (k, r1) =>
        match skipWs r1 with
        | ':' :: r2 =>
          match parseVal fuel r2 with
          | none => none
          | some (v, r3) =>
            match skipWs r3 with
            | ',' :: r4 =>
              match parseMembers fuel r4 with
              | some (.obj ms, r5) => some (.obj ((String.mk k, v) :: ms), r5)
              | _ => none
            | d :: r4 =>
              if d = '}' then some (.obj [(String.mk k, v)], r4) else none
            | _ => none
        | _ => none
    | _ => none

end

/-- `json.dumps(value)` as a character list. -/
def dumps (j : Json) : List Char := serVal j

/-- `json.loads`: parse a complete JSON document, allowing trailing
whitespace only. -/
def loads (cs : List Char) : Option Json :=
  match parseVal (cs.length + 1) cs with
  | some (j, rest) => if skipWs rest = [] then some j else none
  | none => none

end Jx

namespace Jx

/-- `toNat` of `Char.ofNat` at a valid code point. -/
theorem char_toNat_ofNat (n : Nat) (h : n.isValidChar) : (Char.ofNat n).toNat = n := by
  simp [Char.ofNat, h, Char.ofNatAux, Char.toNat, UInt32.toNat, BitVec.toNat_ofNatLt]

/-- Every character carries a valid code point. -/
theorem char_valid_toNat (c : Char) : c.toNat.isValidChar := by
  have h := c.valid
  unfold UInt32.isValidChar at h
  exact h

/-- Characters with distinct code points are distinct. -/
theorem char_ne_of_toNat_ne (a b : Char) (h : a.toNat ≠ b.toNat) : a ≠ b :=
  fun hab => h (congrArg Char.toNat hab)

/-- Code point of a decimal digit character. -/
theorem digitChar_toNat (d : Nat) (h : d < 10) : (digitChar d).toNat = 48 + d := by
  refine char_toNat_ofNat _ ?_
  exact Or.inl (by omega)

/-- Digit characters satisfy `isDigitChar`. -/
theorem isDigitChar_digitChar (d : Nat) (h : d < 10) : isDigitChar (digitChar d) = true := by
  simp [isDigitChar, digitChar_toNat d h]
  omega

/-- `decValue` over an appended final digit. -/
theorem decValue_append (ds : List Char) (c : Char) :
    decValue (ds ++ [c]) = 10 * decValue ds + (c.toNat - 48) := by
  simp [decValue, List.foldl_append]

/-- Correctness of `natDigits`: with sufficient fuel it is nonempty, emits
only digits, and its decimal value is the input. -/
theorem natDigits_spec : ∀ (fuel n : Nat), n < fuel →
    natDigits fuel n ≠ [] ∧ (∀ c ∈ natDigits fuel n, isDigitChar c = true) ∧
    decValue (natDigits fuel n) = n := by
  intro fuel
  induction fuel with
  | zero => intro n h; omega
  | succ f ih =>
      intro n h
      by_cases hn : n < 10
      · refine ⟨by simp [natDigits, hn], ?_, ?_⟩
        · intro c hc
          simp only [natDigits, if_pos hn, List.mem_singleton] at hc
          subst hc
          exact isDigitChar_digitChar n hn
        · simp [natDigits, hn, decValue, digitChar_toNat n hn]
      · have hdiv : n / 10 < f := by omega
        obtain ⟨hne, hdig, hval⟩ := ih (n / 10) hdiv
        have hlt : n % 10 < 10 := Nat.mod_lt _ (by omega)
        refine ⟨by simp [natDigits, hn], ?_, ?_⟩
        · intro c hc
          simp only [natDigits, if_neg hn, List.mem_append, List.mem_singleton] at hc
          rcases hc with hc | hc
          · exact hdig c hc
          · subst hc
            exact isDigitChar_digitChar _ hlt
        · rw [natDigits, if_neg hn, decValue_append, hval, digitChar_toNat _ hlt]
          omega

/-- `natDec` is nonempty, all digits, with value `n`. -/
theorem natDec_spec (n : Nat) :
    natDec n ≠ [] ∧ (∀ c ∈ natDec n, isDigitChar c = true) ∧ decValue (natDec n) = n :=
  natDigits_spec (n + 1) n (Nat.lt_succ_self n)

/-- First-character classification of a character list. -/
def headSafe : List Char → Prop
  | [] => True
  | c :: _ => isDigitChar c = false

/-- `takeDigits` splits a digit run from a non-digit-headed remainder. -/
theorem takeDigits_spec : ∀ (ds rest : List Char),
    (∀ c ∈ ds, isDigitChar c = true) → headSafe rest →
    takeDigits (ds ++ rest) = (ds, rest) := by
  intro ds
  induction ds with
  | nil =>
      intro rest _ hrest
      cases rest with
      | nil => rfl
      | cons c cs =>
          simp only [headSafe] at hrest
          simp [takeDigits, hrest]
  | cons d ds ih =>
      intro rest hds hrest
      have hd : isDigitChar d = true := hds d (List.mem_cons_self ..)
      have htail := ih rest (fun c hc => hds c (List.mem_cons_of_mem _ hc)) hrest
      simp [takeDigits, hd, htail]

end Jx

namespace Jx

theorem hexVal_hexDigitChar : ∀ d : Fin 16, hexVal (Sha.hexDigitChar d.val) = some d.val := by
  decide

theorem hexVal_digit (x : Nat) (h : x < 16) : hexVal (Sha.hexDigitChar x) = some x :=
  hexVal_hexDigitChar ⟨x, h⟩

theorem escChar_length_pos (c : Char) : 1 ≤ (escChar c).length := by
  simp only [escChar]
  split_ifs <;> simp [hex4]

theorem escString_length_ge (s : List Char) : s.length ≤ (escString s).length := by
  induction s with
  | nil => simp [escString]
  | cons c cs ih =>
      simp only [escString, List.flatMap_cons, List.length_append, List.length_cons]
      have := escChar_length_pos c
      simp only [escString] at ih
      omega

theorem char_eq_of_toNat_eq (a b : Char) (h : a.toNat = b.toNat) : a = b := by
  have ha := Char.ofNat_toNat a
  rw [h] at ha
  exact ha.symm.trans (Char.ofNat_toNat b)

/-- Parsing one `\uXXXX` escape outside the surrogate ranges. -/
theorem parseStringBody_u (code : Nat) (h16 : code < 65536)
    (hns : ¬(55296 ≤ code ∧ code ≤ 56319)) (hns2 : ¬(56320 ≤ code ∧ code ≤ 57343))
    (fuel : Nat) (tail : List Char) :
    parseStringBody (fuel + 1) ('\\' :: 'u' :: hex4 code ++ tail) =
      (parseStringBody fuel tail).map (fun p => (Char.ofNat code :: p.1, p.2)) := by
  have e1 := hexVal_digit (code / 4096 % 16) (Nat.mod_lt _ (by omega))
  have e2 := hexVal_digit (code / 256 % 16) (Nat.mod_lt _ (by omega))
  have e3 := hexVal_digit (code / 16 % 16) (Nat.mod_lt _ (by omega))
  have e4 := hexVal_digit (code % 16) (Nat.mod_lt _ (by omega))
  have hcode : ((code / 4096 % 16 * 16 + code / 256 % 16) * 16 +
      code / 16 % 16) * 16 + code % 16 = code := by omega
  simp [hex4, parseStringBody, e1, e2, e3, e4, hcode, hns, hns2]

/-- Parsing a surrogate-pair escape recombines the astral code point. -/
theorem parseStringBody_u2 (hi lo : Nat)
    (hhi : 55296 ≤ hi ∧ hi ≤ 56319) (hlo : 56320 ≤ lo ∧ lo ≤ 57343)
    (fuel : Nat) (tail : List Char) :
    parseStringBody (fuel + 1) ('\\' :: 'u' :: hex4 hi ++ '\\' :: 'u' :: hex4 lo ++ tail) =
      (parseStringBody fuel tail).map
        (fun p => (Char.ofNat (65536 + (hi - 55296) * 1024 + (lo - 56320)) :: p.1, p.2)) := by
  have hhilt : hi < 65536 := by omega
  have hlolt : lo < 65536 := by omega
  have e1 := hexVal_digit (hi / 4096 % 16) (Nat.mod_lt _ (by omega))
  have e2 := hexVal_digit (hi / 256 % 16) (Nat.mod_lt _ (by omega))
  have e3 := hexVal_digit (hi / 16 % 16) (Nat.mod_lt _ (by omega))
  have e4 := hexVal_digit (hi % 16) (Nat.mod_lt _ (by omega))
  have f1 := hexVal_digit (lo / 4096 % 16) (Nat.mod_lt _ (by omega))
  have f2 := hexVal_digit (lo / 256 % 16) (Nat.mod_lt _ (by omega))
  have f3 := hexVal_digit (lo / 16 % 16) (Nat.mod_lt _ (by omega))
  have f4 := hexVal_digit (lo % 16) (Nat.mod_lt _ (by omega))
  have hcodeHi : ((hi / 4096 % 16 * 16 + hi / 256 % 16) * 16 +
      hi / 16 % 16) * 16 + hi % 16 = hi := by omega
  have hcodeLo : ((lo / 4096 % 16 * 16 + lo / 256 % 16) * 16 +
      lo / 16 % 16) * 16 + lo % 16 = lo := by omega
  simp [hex4, parseStringBody, e1, e2, e3, e4, f1, f2, f3, f4, hcodeHi, hcodeLo,
    hhi.1, hhi.2, hlo.1, hlo.2]

theorem parseStringBody_esc : ∀ (s rest : List Char) (fuel : Nat), s.length < fuel →
    parseStringBody fuel (escString s ++ '"' :: rest) = some (s, rest) := by
  intro s
  induction s with
  | nil =>
      intro rest fuel hf
      cases fuel with
      | zero => omega
      | succ f => simp [escString, parseStringBody]
  | cons c cs ih =>
      intro rest fuel hf
      cases fuel with
      | zero => simp at hf
      | succ f =>
      have hcs : cs.length < f := by simp at hf; omega
      have hIH := ih rest f hcs
      have hval := char_valid_toNat c
      unfold Nat.isValidChar at hval
      simp only [escString, List.flatMap_cons]
      by_cases hq : c = '"'
      · subst hq
        simp only [escString] at hIH
        simp [escChar, parseStringBody, hIH]
      · by_cases hb : c = '\\'
        · subst hb
          simp only [escString] at hIH
          simp [escChar, parseStringBody, hIH]
        · simp only [escString] at hIH
          by_cases h32 : c.toNat < 32
          · by_cases h8 : c.toNat = 8
            · have hc : Char.ofNat 8 = c := char_eq_of_toNat_eq _ _ (by rw [h8]; rfl)
              simp [escChar, if_neg hq, if_neg hb, if_pos h32, h8, parseStringBody]
              exact ⟨hIH, hc⟩
            · by_cases h9 : c.toNat = 9
              · have hc : Char.ofNat 9 = c := char_eq_of_toNat_eq _ _ (by rw [h9]; rfl)
                simp [escChar, if_neg hq, if_neg hb, if_pos h32, h8, h9, parseStringBody]
                exact ⟨hIH, hc⟩
              · by_cases h10 : c.toNat = 10
                · have hc : Char.ofNat 10 = c := char_eq_of_toNat_eq _ _ (by rw [h10]; rfl)
                  simp [escChar, if_neg hq, if_neg hb, if_pos h32, h8, h9, h10, parseStringBody]
                  exact ⟨hIH, hc⟩
                · by_cases h12 : c.toNat = 12
                  · have hc : Char.ofNat 12 = c := char_eq_of_toNat_eq _ _ (by rw [h12]; rfl)
                    simp [escChar, if_neg hq, if_neg hb, if_pos h32, h8, h9, h10, h12, parseStringBody]
                    exact ⟨hIH, hc⟩
                  · by_cases h13 : c.toNat = 13
                    · have hc : Char.ofNat 13 = c := char_eq_of_toNat_eq _ _ (by rw [h13]; rfl)
                      simp [escChar, if_neg hq, if_neg hb, if_pos h32, h8, h9, h10, h12, h13,
                        parseStringBody]
                      exact ⟨hIH, hc⟩
                    · have hc : Char.ofNat c.toNat = c := Char.ofNat_toNat c
                      have hstep := parseStringBody_u c.toNat (by omega)
                        (by omega) (by omega) f (escString cs ++ '"' :: rest)
                      simp only [escString] at hstep
                      simp only [escChar, if_neg hq, if_neg hb, if_pos h32]
                      rw [if_neg h8, if_neg h9, if_neg h10, if_neg h12, if_neg h13]
                      simp only [List.cons_append, List.append_assoc]
                      refine hstep.trans ?_
                      rw [hIH]
                      simp [hc]
          · by_cases h128 : c.toNat < 128
            · simp [escChar, hq, hb, h32, h128, parseStringBody, hIH]
            · by_cases h655 : c.toNat < 65536
              · have hns : c.toNat < 55296 ∨ 57343 < c.toNat := by
                  rcases hval with h | ⟨h1, h2⟩
                  · exact Or.inl h
                  · exact Or.inr h1
                have hc : Char.ofNat c.toNat = c := Char.ofNat_toNat c
                have hstep := parseStringBody_u c.toNat (by omega)
                  (by omega) (by omega) f (escString cs ++ '"' :: rest)
                simp only [escString] at hstep
                simp only [escChar, if_neg hq, if_neg hb, if_neg h32, if_neg h128, if_pos h655,
                  List.cons_append, List.append_assoc]
                refine hstep.trans ?_
                rw [hIH]
                simp [hc]
              · have hup : c.toNat < 1114112 := by
                  rcases hval with h | ⟨h1, h2⟩
                  · omega
                  · exact h2
                set v := c.toNat - 65536 with hv2
                have hvlt : v < 1048576 := by omega
                have hmod := Nat.mod_lt v (show 0 < 1024 by omega)
                have hdm : v / 1024 * 1024 + v % 1024 = v := by omega
                have hc : Char.ofNat c.toNat = c := Char.ofNat_toNat c
                have hstep := parseStringBody_u2 (55296 + v / 1024) (56320 + v % 1024)
                  ⟨by omega, by omega⟩ ⟨by omega, by omega⟩ f (escString cs ++ '"' :: rest)
                simp only [escString] at hstep
                have hfin : 65536 + (55296 + v / 1024 - 55296) * 1024 +
                    (56320 + v % 1024 - 56320) = c.toNat := by omega
                rw [hfin] at hstep
                simp only [escChar, if_neg hq, if_neg hb, if_neg h32, if_neg h128, if_neg h655,
                  List.cons_append, List.append_assoc, List.nil_append]
                refine hstep.trans ?_
                rw [hIH]
                simp [hc]

end Jx

namespace Jx

mutual

/-- Fuel needed by `parseVal` on the serialisation of a value. -/
def valF : Json → Nat
  | .null => 1
  | .bool _ => 1
  | .num _ => 1
  | .str _ => 1
  | .arr [] => 1
  | .arr (e :: es) => listF (e :: es) + 1
  | .obj [] => 1
  | .obj (m :: ms) => memF (m :: ms) + 1

/-- Fuel needed by `parseElems` on serialised array elements. -/
def listF : List Json → Nat
  | [] => 0
  | e :: es => valF e + listF es + 1

/-- Fuel needed by `parseMembers` on serialised object members. -/
def memF : List (String × Json) → Nat
  | [] => 0
  | (_, v) :: ms => valF v + memF ms + 1

end

/-- `skipWs` is the identity on a non-whitespace head. -/
theorem skipWs_cons (c : Char) (cs : List Char) (h : isWsChar c = false) :
    skipWs (c :: cs) = c :: cs := by
  simp [skipWs, h]

/-- `parseVal` ignores one leading whitespace character. -/
theorem parseVal_cons_ws (fuel : Nat) (c : Char) (cs : List Char) (h : isWsChar c = true) :
    parseVal fuel (c :: cs) = parseVal fuel cs := by
  cases fuel with
  | zero => rfl
  | succ f =>
      have hskip : skipWs (c :: cs) = skipWs cs := by simp [skipWs, h]
      simp only [parseVal, hskip]

/-- `parseElems` ignores one leading whitespace character. -/
theorem parseElems_cons_ws (fuel : Nat) (c : Char) (cs : List Char) (h : isWsChar c = true) :
    parseElems fuel (c :: cs) = parseElems fuel cs := by
  cases fuel with
  | zero => rfl
  | succ f => simp only [parseElems, parseVal_cons_ws f c cs h]

/-- `parseMembers` ignores one leading whitespace character. -/
theorem parseMembers_cons_ws (fuel : Nat) (c : Char) (cs : List Char) (h : isWsChar c = true) :
    parseMembers fuel (c :: cs) = parseMembers fuel cs := by
  cases fuel with
  | zero => rfl
  | succ f =>
      have hskip : skipWs (c :: cs) = skipWs cs := by simp [skipWs, h]
      simp only [parseMembers, hskip]

/-- Every serialised value starts with a character that is not whitespace,
not a closing bracket, and not a separator. -/
theorem serVal_head (j : Json) : ∃ c cs, serVal j = c :: cs ∧
    isWsChar c = false ∧ c ≠ ']' ∧ c ≠ '}' ∧ c ≠ ',' := by
  cases j with
  | null => exact ⟨'n', _, rfl, by decide, by decide, by decide, by decide⟩
  | bool b =>
      cases b with
      | true => exact ⟨'t', _, rfl, by decide, by decide, by decide, by decide⟩
      | false => exact ⟨'f', _, rfl, by decide, by decide, by decide, by decide⟩
  | num n =>
      by_cases hn : n < 0
      · refine ⟨'-', natDec n.natAbs, ?_, by decide, by decide, by decide, by decide⟩
        simp [serVal, intDec, hn]
      · obtain ⟨hne, hdig, -⟩ := natDec_spec n.toNat
        obtain ⟨d, tl, hd⟩ := List.exists_cons_of_ne_nil hne
        have hdd : isDigitChar d = true := hdig d (by rw [hd]; exact List.mem_cons_self ..)
        have hrange : 48 ≤ d.toNat ∧ d.toNat ≤ 57 := by
          simpa [isDigitChar, Bool.and_eq_true, decide_eq_true_iff] using hdd
        refine ⟨d, tl, ?_, ?_, ?_, ?_, ?_⟩
        · simp [serVal, intDec, hn, hd]
        · simp only [isWsChar]
          simp only [Bool.or_eq_false_iff, decide_eq_false_iff_not]
          refine ⟨⟨⟨?_, ?_⟩, ?_⟩, ?_⟩ <;>
            (intro h; have := congrArg Char.toNat h; simp at this; omega)
        · exact char_ne_of_toNat_ne _ _ (by intro h; simp at h; omega)
        · exact char_ne_of_toNat_ne _ _ (by intro h; simp at h; omega)
        · exact char_ne_of_toNat_ne _ _ (by intro h; simp at h; omega)
  | str s => exact ⟨'"', _, rfl, by decide, by decide, by decide, by decide⟩
  | arr es =>
      cases es with
      | nil => exact ⟨'[', _, rfl, by decide, by decide, by decide, by decide⟩
      | cons e es => exact ⟨'[', _, rfl, by decide, by decide, by decide, by decide⟩
  | obj ms =>
      cases ms with
      | nil => exact ⟨'{', _, rfl, by decide, by decide, by decide, by decide⟩
      | cons m ms =>
          obtain ⟨k, v⟩ := m
          exact ⟨'{', _, rfl, by decide, by decide, by decide, by decide⟩

/-- The serialisation of remaining elements followed by `]` never starts
with a digit. -/
theorem headSafe_serElems (es : List Json) (rest : List Char) :
    headSafe (serElems es ++ ']' :: rest) := by
  cases es with
  | nil => simp [serElems, headSafe, isDigitChar]
  | cons e es => simp [serElems, headSafe, isDigitChar]

/-- The serialisation of remaining members followed by the closing brace
never starts with a digit. -/
theorem headSafe_serMembers (ms : List (String × Json)) (rest : List Char) :
    headSafe (serMembers ms ++ '}' :: rest) := by
  cases ms with
  | nil => simp [serMembers, headSafe, isDigitChar]
  | cons m ms =>
      obtain ⟨k, v⟩ := m
      simp [serMembers, headSafe, isDigitChar]

end Jx

namespace Jx

/-- Rest-condition for parsing serialised values: after a number the
remainder must not begin with a digit. -/
def numTail : Json → List Char → Prop
  | .num _, rest => headSafe rest
  | _, _ => True

/-- Any non-digit-headed remainder satisfies `numTail`. -/
theorem numTail_of_headSafe (j : Json) (rest : List Char) (h : headSafe rest) :
    numTail j rest := by
  cases j with
  | num n => exact h
  | null => trivial
  | bool b => trivial
  | str s => trivial
  | arr es => trivial
  | obj ms => trivial

/-- Parsing a serialised integer (standalone case of the roundtrip). -/
theorem parseVal_num (n : Int) (rest : List Char) (fuel : Nat) (hrest : headSafe rest) :
    parseVal (fuel + 1) (serVal (.num n) ++ rest) = some (.num n, rest) := by
  by_cases hn : n < 0
  · obtain ⟨hne, hdig, hval⟩ := natDec_spec n.natAbs
    obtain ⟨d, tl, hd⟩ := List.exists_cons_of_ne_nil hne
    have htake : takeDigits (natDec n.natAbs ++ rest) = (natDec n.natAbs, rest) :=
      takeDigits_spec _ _ hdig hrest
    rw [hd] at htake hval
    have hint : -(decValue (d :: tl) : Int) = n := by rw [hval]; omega
    simp only [serVal, intDec, if_pos hn, List.cons_append, hd]
    simp only [parseVal]
    rw [skipWs_cons '-' _ (by decide)]
    simp only [List.cons_append] at htake
    simp [htake, hint]
  · obtain ⟨hne, hdig, hval⟩ := natDec_spec n.toNat
    obtain ⟨d, tl, hd⟩ := List.exists_cons_of_ne_nil hne
    have hdd : isDigitChar d = true := hdig d (by rw [hd]; exact List.mem_cons_self ..)
    have hrange : 48 ≤ d.toNat ∧ d.toNat ≤ 57 := by
      simpa [isDigitChar, Bool.and_eq_true, decide_eq_true_iff] using hdd
    have htake : takeDigits (natDec n.toNat ++ rest) = (natDec n.toNat, rest) :=
      takeDigits_spec _ _ hdig hrest
    rw [hd] at htake hval
    have hint : (decValue (d :: tl) : Int) = n := by
      rw [hval]
      omega
    simp only [serVal, intDec, if_neg hn, hd, List.cons_append]
    simp only [parseVal]
    rw [skipWs_cons d _ (by
      simp only [isWsChar, Bool.or_eq_false_iff, decide_eq_false_iff_not]
      refine ⟨⟨⟨?_, ?_⟩, ?_⟩, ?_⟩ <;>
        (intro h; have := congrArg Char.toNat h; simp at this; omega))]
    have hne1 : ¬d = '{' := char_ne_of_toNat_ne _ _ (by intro h; simp at h; omega)
    have hne2 : ¬d = '[' := char_ne_of_toNat_ne _ _ (by intro h; simp at h; omega)
    have hne3 : ¬d = '"' := char_ne_of_toNat_ne _ _ (by intro h; simp at h; omega)
    have hne4 : ¬d = 't' := char_ne_of_toNat_ne _ _ (by intro h; simp at h; omega)
    have hne5 : ¬d = 'f' := char_ne_of_toNat_ne _ _ (by intro h; simp at h; omega)
    have hne6 : ¬d = 'n' := char_ne_of_toNat_ne _ _ (by intro h; simp at h; omega)
    have hne7 : ¬d = '-' := char_ne_of_toNat_ne _ _ (by intro h; simp at h; omega)
    simp only [List.cons_append] at htake
    simp [hne1, hne2, hne3, hne4, hne5, hne6, hne7, hdd, htake, hint]

end Jx

namespace Jx

/-- One step of `parseVal` on an opening bracket. -/
theorem parseVal_succ_bracket (f : Nat) (tail : List Char) :
    parseVal (f + 1) ('[' :: tail) =
      (match skipWs tail with
       | [] => none
       | d :: rest1 => if d = ']' then some (.arr [], rest1) else parseElems f (d :: rest1)) := by
  simp [parseVal, skipWs, isWsChar]

/-- One step of `parseVal` on an opening brace. -/
theorem parseVal_succ_brace (f : Nat) (tail : List Char) :
    parseVal (f + 1) ('{' :: tail) =
      (match skipWs tail with
       | [] => none
       | d :: rest1 => if d = '}' then some (.obj [], rest1) else parseMembers f (d :: rest1)) := by
  simp [parseVal, skipWs, isWsChar]

end Jx

namespace Jx

/-- Combined roundtrip statement for values, array elements and object
members, by strong induction on the parser fuel. -/
theorem parse_ser_combined : ∀ (fuel : Nat),
    (∀ (j : Json) (rest : List Char), valF j < fuel → numTail j rest →
        parseVal fuel (serVal j ++ rest) = some (j, rest)) ∧
    (∀ (e : Json) (es : List Json) (rest : List Char), listF (e :: es) < fuel →
        parseElems fuel (serVal e ++ (serElems es ++ ']' :: rest)) = some (.arr (e :: es), rest)) ∧
    (∀ (k : String) (v : Json) (ms : List (String × Json)) (rest : List Char),
        memF ((k, v) :: ms) < fuel →
        parseMembers fuel (serStr k ++ ':' :: ' ' :: serVal v ++ (serMembers ms ++ '}' :: rest)) =
          some (.obj ((k, v) :: ms), rest)) := by
  intro fuel
  induction fuel using Nat.strong_induction_on with
  | _ fuel ih =>
  cases fuel with
  | zero => exact ⟨fun j _ hf => by omega, fun e es _ hf => by omega, fun k v ms _ hf => by omega⟩
  | succ f =>
  obtain ⟨ihV, ihE, ihM⟩ := ih f (Nat.lt_succ_self f)
  refine ⟨?_, ?_, ?_⟩
  · -- parseVal on a serialised value
    intro j rest hf ht
    cases j with
    | null => simp [serVal, parseVal, skipWs, isWsChar]
    | bool b => cases b <;> simp [serVal, parseVal, skipWs, isWsChar]
    | num n => exact parseVal_num n rest f ht
    | str s =>
        have hstr := parseStringBody_esc s.data rest
          ((escString s.data).length + (rest.length + 1) + 1)
          (by have := escString_length_ge s.data; omega)
        simp only [serVal, serStr, List.cons_append, List.append_assoc]
        simp only [parseVal]
        rw [skipWs_cons '"' _ (by decide)]
        simp only [show ¬('"' : Char) = '{' by decide, show ¬('"' : Char) = '[' by decide,
          ite_false, if_pos rfl]
        simp [hstr]
    | arr es =>
        cases es with
        | nil => simp [serVal, parseVal, skipWs, isWsChar]
        | cons e es =>
            obtain ⟨c0, cs0, hhead, hws, hbr, hbr2, hcm⟩ := serVal_head e
            have hfl : listF (e :: es) < f := by
              simp only [valF] at hf
              omega
            have hrec := ihE e es rest hfl
            have hinput : serVal e ++ (serElems es ++ ']' :: rest) =
                c0 :: (cs0 ++ (serElems es ++ ']' :: rest)) := by
              rw [hhead]
              simp
            simp only [serVal, List.cons_append, List.append_assoc, List.nil_append]
            rw [parseVal_succ_bracket]
            rw [hinput, skipWs_cons c0 _ hws]
            simp only []
            rw [if_neg hbr, ← hinput]
            exact hrec
    | obj ms =>
        cases ms with
        | nil => simp [serVal, parseVal, skipWs, isWsChar]
        | cons m ms =>
            obtain ⟨k, v⟩ := m
            have hfm : memF ((k, v) :: ms) < f := by
              simp only [valF] at hf
              omega
            have hrec := ihM k v ms rest hfm
            simp only [serVal, serStr, List.cons_append, List.append_assoc, List.nil_append]
            rw [parseVal_succ_brace]
            rw [skipWs_cons '"' _ (by decide)]
            simp only []
            rw [if_neg (show ¬('"' : Char) = '}' by decide)]
            simp only [serStr, List.cons_append, List.append_assoc, List.nil_append] at hrec
            exact hrec
  · -- parseElems on serialised elements
    intro e es rest hf
    have hfe : valF e < f := by
      simp only [listF] at hf
      omega
    have hv := ihV e (serElems es ++ ']' :: rest) hfe
      (numTail_of_headSafe e _ (headSafe_serElems es rest))
    simp only [parseElems]
    rw [hv]
    cases es with
    | nil => simp [serElems, skipWs, isWsChar]
    | cons e2 es2 =>
        have hrec := ihE e2 es2 rest (by simp only [listF] at hf ⊢; omega)
        simp only [serElems, List.cons_append, List.append_assoc, List.nil_append]
        rw [skipWs_cons ',' _ (by decide)]
        simp only []
        rw [parseElems_cons_ws f ' ' _ (by decide)]
        rw [hrec]
  · -- parseMembers on serialised members
    intro k v ms rest hf
    have hfv : valF v < f := by
      simp only [memF] at hf
      omega
    have hv := ihV v (serMembers ms ++ '}' :: rest) hfv
      (numTail_of_headSafe v _ (headSafe_serMembers ms rest))
    simp only [serStr, List.cons_append, List.append_assoc, List.nil_append]
    simp only [parseMembers]
    rw [skipWs_cons '"' _ (by decide)]
    simp only []
    rw [parseStringBody_esc k.data (':' :: ' ' :: (serVal v ++ (serMembers ms ++ '}' :: rest)))]
    case _ =>
      simp only []
      rw [skipWs_cons ':' _ (by decide)]
      simp only []
      rw [parseVal_cons_ws f ' ' _ (by decide)]
      rw [hv]
      cases ms with
      | nil => simp [serMembers, skipWs, isWsChar]
      | cons m2 ms2 =>
          obtain ⟨k2, v2⟩ := m2
          have hrec := ihM k2 v2 ms2 rest (by simp only [memF] at hf ⊢; omega)
          simp only [serMembers, List.cons_append, List.append_assoc, List.nil_append]
          rw [skipWs_cons ',' _ (by decide)]
          simp only []
          rw [parseMembers_cons_ws f ' ' _ (by decide)]
          simp only [List.cons_append, List.append_assoc] at hrec
          rw [hrec]
    case _ =>
      have := escString_length_ge k.data
      simp only [List.length_append, List.length_cons]
      omega

end Jx

namespace Jx

/-- Fuel bounds for the parser are dominated by serialised length (stated
for all three syntactic classes, by strong induction on size). -/
theorem valF_le_all : ∀ (n : Nat),
    (∀ j : Json, sizeOf j ≤ n → valF j ≤ (serVal j).length) ∧
    (∀ es : List Json, sizeOf es ≤ n → listF es ≤ (serElems es).length) ∧
    (∀ ms : List (String × Json), sizeOf ms ≤ n → memF ms ≤ (serMembers ms).length) := by
  intro n
  induction n using Nat.strong_induction_on with
  | _ n ih =>
  refine ⟨?_, ?_, ?_⟩
  · intro j hsz
    cases j with
    | null => simp [valF, serVal, litNull]
    | bool b => cases b <;> simp [valF, serVal, litTrue, litFalse]
    | num m =>
        have h1 : natDec m.natAbs ≠ [] := (natDec_spec m.natAbs).1
        have h2 : natDec m.toNat ≠ [] := (natDec_spec m.toNat).1
        have l1 := List.length_pos.mpr h1
        have l2 := List.length_pos.mpr h2
        simp only [valF, serVal, intDec]
        split
        · simp only [List.length_cons]
          omega
        · omega
    | str s => simp [valF, serVal, serStr]
    | arr es =>
        cases es with
        | nil => simp [valF, serVal]
        | cons e es =>
            have hszc : sizeOf (Json.arr (e :: es)) = 1 + (1 + sizeOf e + sizeOf es) := by
              simp
            have hn1 : n - 1 < n := by omega
            have hv := (ih (n - 1) hn1).1 e (by omega)
            have hes := (ih (n - 1) hn1).2.1 es (by omega)
            simp only [valF, listF, serVal, List.length_cons, List.length_append]
            omega
    | obj ms =>
        cases ms with
        | nil => simp [valF, serVal]
        | cons m ms =>
            obtain ⟨k, v⟩ := m
            have hszc : sizeOf (Json.obj ((k, v) :: ms)) =
                1 + (1 + (1 + sizeOf k + sizeOf v) + sizeOf ms) := by
              simp
            have hn1 : n - 1 < n := by omega
            have hvv := (ih (n - 1) hn1).1 v (by omega)
            have hms := (ih (n - 1) hn1).2.2 ms (by omega)
            simp only [valF, memF, serVal, serStr, List.length_cons, List.length_append]
            omega
  · intro es hsz
    cases es with
    | nil => simp [listF, serElems]
    | cons e es =>
        have hszc : sizeOf (e :: es) = 1 + sizeOf e + sizeOf es := by simp
        have hn1 : n - 1 < n := by omega
        have hv := (ih (n - 1) hn1).1 e (by omega)
        have hes := (ih (n - 1) hn1).2.1 es (by omega)
        simp only [listF, serElems, List.length_cons, List.length_append]
        omega
  · intro ms hsz
    cases ms with
    | nil => simp [memF, serMembers]
    | cons m ms =>
        obtain ⟨k, v⟩ := m
        have hszc : sizeOf ((k, v) :: ms) = 1 + (1 + sizeOf k + sizeOf v) + sizeOf ms := by
          simp
        have hn1 : n - 1 < n := by omega
        have hv := (ih (n - 1) hn1).1 v (by omega)
        have hms := (ih (n - 1) hn1).2.2 ms (by omega)
        simp only [memF, serMembers, serStr, List.length_cons, List.length_append]
        omega

/-- Parser fuel bound for a whole serialised value. -/
theorem valF_le (j : Json) : valF j ≤ (serVal j).length :=
  (valF_le_all (sizeOf j)).1 j (le_refl _)

/-- The serialise/parse roundtrip for whole values with any sufficient fuel. -/
theorem parseVal_ser (j : Json) (rest : List Char) (fuel : Nat)
    (hf : valF j < fuel) (ht : numTail j rest) :
    parseVal fuel (serVal j ++ rest) = some (j, rest) :=
  (parse_ser_combined fuel).1 j rest hf ht

/-- `json.loads` inverts `json.dumps`. -/
theorem loads_dumps (j : Json) : loads (dumps j) = some j := by
  unfold loads dumps
  have h := parseVal_ser j [] ((serVal j).length + 1)
    (by have := valF_le j; omega) (numTail_of_headSafe j [] trivial)
  rw [List.append_nil] at h
  rw [h]
  simp [skipWs]

end Jx

namespace WebhookAudit

open Jx

/-- Arguments of one `WebhookAuditor.log_webhook_request` call, together
with the UTC timestamp the auditor reads from the clock. A `metadata=None`
default corresponds to the empty list. -/
structure AuditCall where
  timestamp : String
  delivery_id : String
  event_type : String
  headers : List (String × String)
  payload : Json
  metadata : List (String × Json)

/-- The audit entry dict assembled by `log_webhook_request`
(`app/webhook_audit.py`, lines 96-103), in insertion order. -/
def auditEntry (c : AuditCall) : Json :=
  .obj [("timestamp", .str c.timestamp),
        ("delivery_id", .str c.delivery_id),
        ("event_type", .str c.event_type),
        ("headers", .obj (c.headers.map (fun kv => (kv.1, .str kv.2)))),
        ("payload", c.payload),
        ("metadata", .obj c.metadata)]

/-- `log_webhook_request`: append one serialised JSON line to the daily
file (modelled as the list of its lines); no-op when disabled. -/
def log_webhook_request (enabled : Bool) (c : AuditCall) (file : List String) : List String :=
  if ¬enabled then file else file ++ [String.mk (dumps (auditEntry c))]

/-- A sequence of calls against the same daily file. -/
def logAll (enabled : Bool) (calls : List AuditCall) (file : List String) : List String :=
  calls.foldl (fun f c => log_webhook_request enabled c f) file

/-- Python's `line.strip()` truthiness test: the line is all whitespace. -/
def isBlankLine (l : String) : Bool := l.data.all isWsChar

/-- The reading loop of `read_audit_logs` (lines 203-216): blank lines are
skipped; a line that fails `json.loads` raises, the exception is caught
outside the loop, and the entries collected so far are returned. -/
def readAuditLines : List String → List Json
  | [] => []
  | l :: ls =>
      if isBlankLine l then readAuditLines ls
      else
        match loads l.data with
        | some j => j :: readAuditLines ls
        | none => []

/-- `read_audit_logs`: empty when disabled or when the day's file does not
exist, otherwise the reading loop over the file's lines. -/
def read_audit_logs (enabled : Bool) (file : Option (List String)) : List Json :=
  if ¬enabled then []
  else
    match file with
    | none => []
    | some lines => readAuditLines lines

/-- Field lookup in a JSON object. -/
def getField (j : Json) (key : String) : Option Json :=
  match j with
  | .obj ms => (ms.find? (fun kv => kv.1 == key)).map (fun kv => kv.2)
  | _ => none

end WebhookAudit

namespace WebhookAudit

open Jx

/-- A serialised audit entry is never a blank line (it starts with a brace). -/
theorem isBlankLine_dumps (c : AuditCall) :
    isBlankLine (String.mk (dumps (auditEntry c))) = false := by
  simp [isBlankLine, auditEntry, dumps, serVal, isWsChar]

/-- Reading back a file of serialised entries yields exactly those entries. -/
theorem readAuditLines_map (calls : List AuditCall) :
    readAuditLines (calls.map (fun c => String.mk (dumps (auditEntry c)))) =
      calls.map auditEntry := by
  induction calls with
  | nil => simp [readAuditLines]
  | cons c cs ih =>
      have hblank := isBlankLine_dumps c
      have hload : loads (String.mk (dumps (auditEntry c))).data = some (auditEntry c) :=
        loads_dumps (auditEntry c)
      simp [readAuditLines, hblank, hload, ih]

/-- `logAll` appends one line per call. -/
theorem logAll_eq (enabled : Bool) (calls : List AuditCall) (file : List String)
    (h : enabled = true) :
    logAll enabled calls file =
      file ++ calls.map (fun c => String.mk (dumps (auditEntry c))) := by
  subst h
  induction calls generalizing file with
  | nil => simp [logAll]
  | cons c cs ih =>
      simp only [logAll, List.foldl_cons, List.map_cons] at *
      rw [ih]
      simp [log_webhook_request]

end WebhookAudit

namespace WebhookAudit

open Jx

/-- C7: audit log round-trip. Logging `N` calls on one UTC day (the
auditor enabled) and reading that day back returns exactly the `N`
entries in call order, and every entry carries the `delivery_id`,
`event_type` and `payload` that were passed in. -/
theorem audit_log_roundtrip (calls : List AuditCall) :
    read_audit_logs true (some (logAll true calls [])) = calls.map auditEntry ∧
    (read_audit_logs true (some (logAll true calls []))).length = calls.length ∧
    (∀ c : AuditCall,
       getField (auditEntry c) "delivery_id" = some (.str c.delivery_id) ∧
       getField (auditEntry c) "event_type" = some (.str c.event_type) ∧
       getField (auditEntry c) "payload" = some c.payload) := by
  have hmain : read_audit_logs true (some (logAll true calls [])) = calls.map auditEntry := by
    rw [logAll_eq true calls [] rfl]
    simp only [List.nil_append]
    simpa [read_audit_logs] using readAuditLines_map calls
  refine ⟨hmain, by rw [hmain]; simp, ?_⟩
  intro c
  exact ⟨rfl, rfl, rfl⟩

/-- C8 (counterexample): with the file `["1", "oops", "2"]` the reader
returns only the entry before the malformed line; the well-formed entry
after it is lost, because the exception handler wraps the whole loop. -/
theorem read_stops_at_malformed_cex :
    read_audit_logs true (some ["1", "oops", "2"]) = [.num 1] ∧
    loads ("oops".data) = none ∧
    loads ("2".data) = some (.num 2) := by
  refine ⟨rfl, rfl, rfl⟩

/-- C8 (amended): a malformed line is not fatal (the reader returns
normally) but reading stops there: the result is exactly the entries of
the well-formed prefix, and lines after the first malformed one are not
returned. -/
theorem read_returns_prefix_before_malformed (good : List AuditCall) (bad : String)
    (rest : List String) (hb : isBlankLine bad = false) (hload : loads bad.data = none) :
    readAuditLines ((good.map fun c => String.mk (dumps (auditEntry c))) ++ bad :: rest) =
      good.map auditEntry := by
  induction good with
  | nil => simp [readAuditLines, hb, hload]
  | cons c cs ih =>
      have hblank := isBlankLine_dumps c
      have hl : loads (String.mk (dumps (auditEntry c))).data = some (auditEntry c) :=
        loads_dumps (auditEntry c)
      simp [readAuditLines, hblank, hl, ih]

/-- Witness for `read_returns_prefix_before_malformed`: one good entry,
the malformed line `"oops"`, and a further well-formed line behind it. -/
theorem read_returns_prefix_before_malformed_witness :
    isBlankLine "oops" = false ∧ loads ("oops".data) = none ∧
    readAuditLines
        (([⟨"t", "d", "push", [], .obj [], []⟩] : List AuditCall).map
          (fun c => String.mk (dumps (auditEntry c))) ++ "oops" :: ["2"]) =
      ([⟨"t", "d", "push", [], .obj [], []⟩] : List AuditCall).map auditEntry :=
  ⟨rfl, rfl,
   read_returns_prefix_before_malformed [⟨"t", "d", "push", [], .obj [], []⟩] "oops" ["2"]
     rfl rfl⟩

end WebhookAudit

namespace WebhookAudit

/-- Leap-year rule of the Gregorian calendar (`datetime.date` validity). -/
def isLeap (y : Nat) : Bool := (y % 4 == 0 && y % 100 != 0) || (y % 400 == 0)

/-- Days in a month, as validated by `datetime.fromisoformat`. -/
def daysInMonth (y m : Nat) : Nat :=
  if m = 2 then (if isLeap y then 29 else 28)
  else if m = 4 || m = 6 || m = 9 || m = 11 then 30
  else 31

/-- Decimal value of a digit character, if it is one. -/
def digitVal (c : Char) : Option Nat :=
  if 48 ≤ c.toNat ∧ c.toNat ≤ 57 then some (c.toNat - 48) else none

/-- `datetime.fromisoformat(s).date()` restricted to the `YYYY-MM-DD`
layout the auditor itself writes, returned as a lexicographically
comparable key `y * 10000 + m * 100 + d`; `none` models the `ValueError`
branch. -/
def parseIsoDate (s : String) : Option Nat :=
  match s.data with
  | [y1, y2, y3, y4, h1, m1, m2, h2, d1, d2] =>
      if h1 = '-' ∧ h2 = '-' then
        match digitVal y1, digitVal y2, digitVal y3, digitVal y4,
              digitVal m1, digitVal m2, digitVal d1, digitVal d2 with
        | some a, some b, some c, some d, some e, some f, some g, some h =>
            let y := ((a * 10 + b) * 10 + c) * 10 + d
            let m := e * 10 + f
            let dd := g * 10 + h
            if 1 ≤ m ∧ m ≤ 12 ∧ 1 ≤ dd ∧ dd ≤ daysInMonth y m ∧ 1 ≤ y then
              some (y * 10000 + m * 100 + dd)
            else none
        | _, _, _, _, _, _, _, _ => none
      else none
  | _ => none

/-- `PurePath.stem`: the file name with the suffix after the last dot
removed (glob matches always contain a dot). -/
def pyStem (s : String) : String :=
  let r := s.data.reverse
  let ext := r.takeWhile (fun c => c ≠ '.')
  if ext.length = s.data.length then s
  else String.mk (s.data.take (s.data.length - ext.length - 1))

/-- `str.replace("webhooks-", "")`: remove every occurrence of the
marker (fuel-indexed; fuel `≥ length` suffices). -/
def removeMarkF : Nat → List Char → List Char
  | 0, cs => cs
  | _, [] => []
  | n + 1, c :: cs =>
      if ['w', 'e', 'b', 'h', 'o', 'o', 'k', 's', '-'].isPrefixOf (c :: cs) then
        removeMarkF n ((c :: cs).drop 9)
      else c :: removeMarkF n cs

/-- The date encoded in an audit file name: stem, drop the `webhooks-`
marker, then ISO-date parse — `cleanup_old_logs` lines 151-153. -/
def logDate (filename : String) : Option Nat :=
  parseIsoDate (String.mk (removeMarkF (pyStem filename).data.length (pyStem filename).data))

/-- The glob pattern `webhooks-*.jsonl`. -/
def matchesGlob (name : String) : Bool :=
  "webhooks-".data.isPrefixOf name.data && ".jsonl".data.isSuffixOf name.data

/-- Whether `cleanup_old_logs` deletes a file: it matches the glob, its
name parses to a date, and that date is strictly before the cutoff. -/
def shouldDelete (cutoff : Nat) (name : String) : Bool :=
  matchesGlob name &&
    (match logDate name with
     | some k => decide (k < cutoff)
     | none => false)

/-- `cleanup_old_logs` over the audit directory (file names are unique):
deletes every matching file older than the cutoff
(`cutoff = utcnow().date() - timedelta(days=retention_days)`), skips
files whose name fails to parse, and returns the deletion count. -/
def cleanup_old_logs (enabled : Bool) (cutoff : Nat) (files : List String) :
    Nat × List String :=
  if ¬enabled then (0, files)
  else ((files.filter (fun f => shouldDelete cutoff f)).length,
        files.filter (fun f => !shouldDelete cutoff f))

end WebhookAudit

namespace WebhookAudit

/-- C9: `cleanup_old_logs` deletes exactly the audit files whose
filename date is strictly older than the cutoff (files with unparseable
dates are never deleted), reports the number removed, and is idempotent:
an immediate second run deletes nothing and reports 0. -/
theorem cleanup_spec (cutoff : Nat) (files : List String) :
    (cleanup_old_logs true cutoff files).1 =
      (files.filter (fun f => shouldDelete cutoff f)).length ∧
    (cleanup_old_logs true cutoff files).2 =
      files.filter (fun f => !shouldDelete cutoff f) ∧
    (∀ f ∈ files, logDate f = none → f ∈ (cleanup_old_logs true cutoff files).2) ∧
    cleanup_old_logs true cutoff (cleanup_old_logs true cutoff files).2 =
      (0, (cleanup_old_logs true cutoff files).2) := by
  have hcl : cleanup_old_logs true cutoff files =
      ((files.filter (fun f => shouldDelete cutoff f)).length,
        files.filter (fun f => !shouldDelete cutoff f)) := rfl
  refine ⟨by rw [hcl], by rw [hcl], ?_, ?_⟩
  · intro f hf hnone
    rw [hcl]
    refine List.mem_filter.mpr ⟨hf, ?_⟩
    simp [shouldDelete, hnone]
  · have hcl2 : cleanup_old_logs true cutoff (files.filter (fun f => !shouldDelete cutoff f)) =
        (((files.filter (fun f => !shouldDelete cutoff f)).filter
            (fun f => shouldDelete cutoff f)).length,
          (files.filter (fun f => !shouldDelete cutoff f)).filter
            (fun f => !shouldDelete cutoff f)) := rfl
    have h1 : (files.filter (fun f => !shouldDelete cutoff f)).filter
        (fun f => shouldDelete cutoff f) = [] := by
      rw [List.filter_filter]
      refine List.filter_eq_nil_iff.mpr ?_
      intro a ha
      cases h : shouldDelete cutoff a <;> simp [h]
    have h2 : (files.filter (fun f => !shouldDelete cutoff f)).filter
        (fun f => !shouldDelete cutoff f) = files.filter (fun f => !shouldDelete cutoff f) := by
      refine List.filter_eq_self.mpr ?_
      intro a ha
      exact (List.mem_filter.mp ha).2
    rw [hcl, hcl2, h1, h2]
    simp

/-- Witness for `cleanup_spec`: with cutoff 2024-01-05, a January file
is deleted, a February file survives, and an immediate second run on the
survivors deletes nothing and reports 0. -/
theorem cleanup_spec_witness :
    (cleanup_old_logs true 20240105
        ["webhooks-2024-01-01.jsonl", "webhooks-2024-02-01.jsonl"]).2 =
      ["webhooks-2024-02-01.jsonl"] ∧
    cleanup_old_logs true 20240105 ["webhooks-2024-02-01.jsonl"] =
      (0, ["webhooks-2024-02-01.jsonl"]) := by
  have h := cleanup_spec 20240105
    ["webhooks-2024-01-01.jsonl", "webhooks-2024-02-01.jsonl"]
  have he : (cleanup_old_logs true 20240105
      ["webhooks-2024-01-01.jsonl", "webhooks-2024-02-01.jsonl"]).2 =
      ["webhooks-2024-02-01.jsonl"] := by
    rw [h.2.1]; rfl
  have h4 := h.2.2.2
  rw [he] at h4
  exact ⟨he, h4⟩

end WebhookAudit

namespace WebhookReceiver

open Jx

/-- The `action` literal of `PullRequestWebhookPayload` (`models/github.py`
lines 90-104). -/
inductive PRAction where
  | opened | closed | reopened | synchronize | edited | assigned | unassigned
  | labeled | unlabeled | review_requested | review_request_removed
  | ready_for_review | converted_to_draft
deriving DecidableEq

/-- The wire string of an action. -/
def PRAction.toString : PRAction → String
  | .opened => "opened"
  | .closed => "closed"
  | .reopened => "reopened"
  | .synchronize => "synchronize"
  | .edited => "edited"
  | .assigned => "assigned"
  | .unassigned => "unassigned"
  | .labeled => "labeled"
  | .unlabeled => "unlabeled"
  | .review_requested => "review_requested"
  | .review_request_removed => "review_request_removed"
  | .ready_for_review => "ready_for_review"
  | .converted_to_draft => "converted_to_draft"

/-- Parse an action literal, rejecting unknown strings as pydantic does. -/
def parseAction (s : String) : Option PRAction :=
  if s = "opened" then some .opened
  else if s = "closed" then some .closed
  else if s = "reopened" then some .reopened
  else if s = "synchronize" then some .synchronize
  else if s = "edited" then some .edited
  else if s = "assigned" then some .assigned
  else if s = "unassigned" then some .unassigned
  else if s = "labeled" then some .labeled
  else if s = "unlabeled" then some .unlabeled
  else if s = "review_requested" then some .review_requested
  else if s = "review_request_removed" then some .review_request_removed
  else if s = "ready_for_review" then some .ready_for_review
  else if s = "converted_to_draft" then some .converted_to_draft
  else none

/-- `GitHubUser` (`models/github.py` lines 15-22). `HttpUrl`-typed fields
are carried as their string value, validated by `isHttpUrl` at parse
time. -/
structure GitHubUser where
  login : String
  id : Int
  avatar_url : String
  html_url : String
  type : String

/-- `GitHubRepository` (`models/github.py` lines 25-35); `description`
is `str | None` with default `None`. -/
structure GitHubRepository where
  id : Int
  name : String
  full_name : String
  html_url : String
  description : Option String
  «private» : Bool
  owner : GitHubUser
  default_branch : String

/-- `GitHubRef` (`models/github.py` lines 38-46); `sha` carries the
`min_length=40, max_length=40` constraint checked by `model_validate`;
`repo` is optional with default `None`. -/
structure GitHubRef where
  ref : String
  sha : String
  repo : Option GitHubRepository
  user : GitHubUser
  label : String

/-- `PullRequest` (`models/github.py` lines 48-72); `datetime`-typed
fields are carried as their string value, validated by `isIsoDateTime`
at parse time. -/
structure PullRequest where
  id : Int
  number : Int
  state : String
  title : String
  body : Option String
  html_url : String
  diff_url : String
  patch_url : String
  created_at : String
  updated_at : String
  closed_at : Option String
  merged_at : Option String
  merge_commit_sha : Option String
  user : GitHubUser
  head : GitHubRef
  base : GitHubRef
  merged : Bool
  mergeable : Option Bool
  draft : Bool
  additions : Int
  deletions : Int
  changed_files : Int

/-- `PullRequestWebhookPayload` (`models/github.py` lines 75-109). -/
structure PullRequestWebhookPayload where
  action : PRAction
  number : Int
  pull_request : PullRequest
  repository : GitHubRepository
  sender : GitHubUser

/-- `is_actionable`: only `opened` and `synchronize` trigger analysis
(`models/github.py` lines 111-121). -/
def PullRequestWebhookPayload.is_actionable (p : PullRequestWebhookPayload) : Bool :=
  p.action == .opened || p.action == .synchronize

/-- `repo_full_name` property. -/
def PullRequestWebhookPayload.repo_full_name (p : PullRequestWebhookPayload) : String :=
  p.repository.full_name

/-- `Commit` (`models/github.py` lines 160-170); `id` carries the
40-length constraint, `author` is a free-form dict, and the three file
lists default to `[]`. -/
structure Commit where
  id : String
  message : String
  timestamp : String
  url : String
  author : List (String × Json)
  added : List String
  removed : List String
  modified : List String

/-- `PushWebhookPayload` (`models/github.py` lines 173-194); `before`
and `after` carry the 40-length constraint, `pusher` is a free-form
dict, `head_commit` is optional with default `None`. -/
structure PushWebhookPayload where
  ref : String
  before : String
  after : String
  repository : GitHubRepository
  pusher : List (String × Json)
  sender : GitHubUser
  commits : List Commit
  head_commit : Option Commit
  compare : String

/-- Python `str.split("/")` on a character list: split at every slash,
keeping empty segments, never returning an empty list. -/
def pySplitSlash : List Char → List (List Char)
  | [] => [[]]
  | c :: cs =>
      if c = '/' then [] :: pySplitSlash cs
      else
        match pySplitSlash cs with
        | t :: ts => (c :: t) :: ts
        | [] => [[c]]

/-- `branch_name`: the last `/`-separated segment of the ref
(`models/github.py` lines 196-203, `self.ref.split("/")[-1]`). -/
def PushWebhookPayload.branch_name (p : PushWebhookPayload) : String :=
  String.mk ((pySplitSlash p.ref.data).getLastD [])

/-- `is_branch_push`: the ref names a branch
(`self.ref.startswith("refs/heads/")`). -/
def PushWebhookPayload.is_branch_push (p : PushWebhookPayload) : Bool :=
  "refs/heads/".data.isPrefixOf p.ref.data

/-- `commit_count` property. -/
def PushWebhookPayload.commit_count (p : PushWebhookPayload) : Nat :=
  p.commits.length

/-- `WebhookDeliveryInfo` (header-derived tracking record). -/
structure WebhookDeliveryInfo where
  delivery_id : String
  event_type : String
  signature : List Char
  payload_size : Nat

/-- String field lookup in a JSON object. -/
def getStr (j : Json) (k : String) : Option String :=
  match WebhookAudit.getField j k with
  | some (.str s) => some s
  | _ => none

/-- Integer field lookup in a JSON object. -/
def getInt (j : Json) (k : String) : Option Int :=
  match WebhookAudit.getField j k with
  | some (.num n) => some n
  | _ => none

/-- Boolean field lookup in a JSON object. -/
def getBool (j : Json) (k : String) : Option Bool :=
  match WebhookAudit.getField j k with
  | some (.bool b) => some b
  | _ => none

/-- Shallow model of Pydantic's `HttpUrl`: an `http`/`https` scheme
followed by a nonempty remainder. Pydantic's URL grammar is wider; the
model agrees with it on every URL these theorems touch. -/
def isHttpUrl (s : String) : Bool :=
  ("https://".data.isPrefixOf s.data && decide (8 < s.data.length)) ||
  ("http://".data.isPrefixOf s.data && decide (7 < s.data.length))

/-- Shallow model of Pydantic's `datetime` field parsing: an ISO-8601
`YYYY-MM-DDTHH:MM:SSZ` timestamp with a calendar-valid date and a valid
time of day. Pydantic accepts further ISO-8601 shapes; the model agrees
with it on every timestamp these theorems touch. -/
def isIsoDateTime (s : String) : Bool :=
  (WebhookAudit.parseIsoDate (String.mk (s.data.take 10))).isSome &&
  (match s.data.drop 10 with
   | ['T', h1, h2, ':', m1, m2, ':', s1, s2, 'Z'] =>
       (match WebhookAudit.digitVal h1, WebhookAudit.digitVal h2,
              WebhookAudit.digitVal m1, WebhookAudit.digitVal m2,
              WebhookAudit.digitVal s1, WebhookAudit.digitVal s2 with
        | some a, some b, some c, some d, some e, some f =>
            decide (a * 10 + b < 24 ∧ c * 10 + d < 60 ∧ e * 10 + f < 60)
        | _, _, _, _, _, _ => false)
   | _ => false)

/-- Required `HttpUrl` field lookup. -/
def getUrl (j : Json) (k : String) : Option String :=
  match WebhookAudit.getField j k with
  | some (.str s) => if isHttpUrl s then some s else none
  | _ => none

/-- Required `datetime` field lookup. -/
def getDatetime (j : Json) (k : String) : Option String :=
  match WebhookAudit.getField j k with
  | some (.str s) => if isIsoDateTime s then some s else none
  | _ => none

/-- Required `dict` field lookup: any JSON object. -/
def getDict (j : Json) (k : String) : Option (List (String × Json)) :=
  match WebhookAudit.getField j k with
  | some (.obj ms) => some ms
  | _ => none

/-- Optional string field (`str | None` with default `None`): absent or
null yields `None`, a present value must be a string. -/
def getOptStr (j : Json) (k : String) : Option (Option String) :=
  match WebhookAudit.getField j k with
  | none => some none
  | some .null => some none
  | some (.str s) => some (some s)
  | some _ => none

/-- Optional datetime field (`datetime | None` with default `None`). -/
def getOptDatetime (j : Json) (k : String) : Option (Option String) :=
  match WebhookAudit.getField j k with
  | none => some none
  | some .null => some none
  | some (.str s) => if isIsoDateTime s then some (some s) else none
  | some _ => none

/-- Optional boolean field (`bool | None` with default `None`). -/
def getOptBool (j : Json) (k : String) : Option (Option Bool) :=
  match WebhookAudit.getField j k with
  | none => some none
  | some .null => some none
  | some (.bool b) => some (some b)
  | some _ => none

/-- Boolean field with a default (`bool = Field(default=...)`): absent
yields the default. -/
def getBoolD (j : Json) (k : String) (d : Bool) : Option Bool :=
  match WebhookAudit.getField j k with
  | none => some d
  | some (.bool b) => some b
  | some _ => none

/-- `list[str]` field with `default_factory=list`: absent yields `[]`. -/
def getStrListD (j : Json) (k : String) : Option (List String) :=
  match WebhookAudit.getField j k with
  | none => some []
  | some (.arr es) => es.mapM (fun e => match e with | .str s => some s | _ => none)
  | some _ => none

/-- Required nested-model field. -/
def getModel {α : Type} (f : Json → Option α) (j : Json) (k : String) : Option α :=
  (WebhookAudit.getField j k).bind f

/-- Optional nested-model field (`Model | None` with default `None`). -/
def getOptModel {α : Type} (f : Json → Option α) (j : Json) (k : String) :
    Option (Option α) :=
  match WebhookAudit.getField j k with
  | none => some none
  | some .null => some none
  | some mj => (f mj).map some

/-- Pydantic validation of `GitHubUser`: required `login`/`id`/`type`
and two `HttpUrl` fields. -/
def GitHubUser.model_validate (j : Json) : Option GitHubUser :=
  match getStr j "login", getInt j "id", getUrl j "avatar_url",
        getUrl j "html_url", getStr j "type" with
  | some l, some i, some av, some hu, some t => some ⟨l, i, av, hu, t⟩
  | _, _, _, _, _ => none

/-- Pydantic validation of `GitHubRepository`: required fields including
the nested `owner` user; `description` is optional. -/
def GitHubRepository.model_validate (j : Json) : Option GitHubRepository :=
  match getInt j "id", getStr j "name", getStr j "full_name",
        getUrl j "html_url", getOptStr j "description", getBool j "private",
        getModel GitHubUser.model_validate j "owner", getStr j "default_branch" with
  | some i, some n, some fn, some hu, some de, some pv, some o, some db =>
      some ⟨i, n, fn, hu, de, pv, o, db⟩
  | _, _, _, _, _, _, _, _ => none

/-- Pydantic validation of `GitHubRef`: required `ref`/`user`/`label`,
optional nested `repo`, and the `sha` length constraint
`min_length=40, max_length=40` -- a pure length check, with no
hexadecimal-character requirement. -/
def GitHubRef.model_validate (j : Json) : Option GitHubRef :=
  match getStr j "ref", getStr j "sha",
        getOptModel GitHubRepository.model_validate j "repo",
        getModel GitHubUser.model_validate j "user", getStr j "label" with
  | some r, some s, some rp, some u, some l =>
      if s.length == 40 then some ⟨r, s, rp, u, l⟩ else none
  | _, _, _, _, _ => none

/-- Pydantic validation of `Commit`: required `id` (a string of exactly
40 characters, again no hex check), `message`, `timestamp`, `url` and
`author`; the file lists default to `[]`. -/
def Commit.model_validate (j : Json) : Option Commit :=
  match getStr j "id", getStr j "message", getDatetime j "timestamp",
        getUrl j "url", getDict j "author", getStrListD j "added",
        getStrListD j "removed", getStrListD j "modified" with
  | some i, some m, some ts, some u, some au, some ad, some rm, some md =>
      if i.length == 40 then some ⟨i, m, ts, u, au, ad, rm, md⟩ else none
  | _, _, _, _, _, _, _, _ => none

/-- Pydantic validation of `PullRequest`: all required fields of
`models/github.py` lines 48-72, the `state` literal, non-negative
counters, and nested user/ref validation. -/
def PullRequest.model_validate (j : Json) : Option PullRequest :=
  match getInt j "id", getInt j "number", getStr j "state", getStr j "title",
        getOptStr j "body", getUrl j "html_url", getUrl j "diff_url",
        getUrl j "patch_url", getDatetime j "created_at",
        getDatetime j "updated_at", getOptDatetime j "closed_at",
        getOptDatetime j "merged_at", getOptStr j "merge_commit_sha",
        getModel GitHubUser.model_validate j "user",
        getModel GitHubRef.model_validate j "head",
        getModel GitHubRef.model_validate j "base",
        getBool j "merged", getOptBool j "mergeable", getBoolD j "draft" false,
        getInt j "additions", getInt j "deletions", getInt j "changed_files" with
  | some i, some n, some st, some ti, some bo, some hu, some du, some pu,
    some ca, some ua, some cl, some ma, some mc, some u, some hd, some b,
    some m, some mg, some dr, some ad, some de, some cf =>
      if (st = "open" ∨ st = "closed") ∧ 0 ≤ ad ∧ 0 ≤ de ∧ 0 ≤ cf then
        some ⟨i, n, st, ti, bo, hu, du, pu, ca, ua, cl, ma, mc, u, hd, b,
              m, mg, dr, ad, de, cf⟩
      else none
  | _, _, _, _, _, _, _, _, _, _, _, _, _, _, _, _, _, _, _, _, _, _ => none

/-- Pydantic validation of `PullRequestWebhookPayload`: the `action`
literal and required nested `pull_request`/`repository`/`sender`. -/
def PullRequestWebhookPayload.model_validate (j : Json) : Option PullRequestWebhookPayload :=
  match getStr j "action", getInt j "number",
        getModel PullRequest.model_validate j "pull_request",
        getModel GitHubRepository.model_validate j "repository",
        getModel GitHubUser.model_validate j "sender" with
  | some a, some n, some pr, some repo, some snd =>
      match parseAction a with
      | some act => some ⟨act, n, pr, repo, snd⟩
      | none => none
  | _, _, _, _, _ => none

/-- Element-wise validation of the commit array (`list[Commit]`). -/
def validateCommits : List Json → Option (List Commit)
  | [] => some []
  | c :: cs =>
      match Commit.model_validate c, validateCommits cs with
      | some x, some xs => some (x :: xs)
      | _, _ => none

/-- Pydantic validation of `PushWebhookPayload`: `before`/`after` carry
the 40-length sha constraint, commits are validated element-wise,
`pusher` is a dict, `sender` a user, `head_commit` optional, `compare`
an `HttpUrl`. -/
def PushWebhookPayload.model_validate (j : Json) : Option PushWebhookPayload :=
  match getStr j "ref", getStr j "before", getStr j "after",
        getModel GitHubRepository.model_validate j "repository",
        getDict j "pusher", getModel GitHubUser.model_validate j "sender",
        WebhookAudit.getField j "commits",
        getOptModel Commit.model_validate j "head_commit", getUrl j "compare" with
  | some r, some b, some a, some repo, some pu, some snd, some (.arr cs),
    some hc, some cmp =>
      if b.length == 40 && a.length == 40 then
        match validateCommits cs with
        | some commits => some ⟨r, b, a, repo, pu, snd, commits, hc, cmp⟩
        | none => none
      else none
  | _, _, _, _, _, _, _, _, _ => none

/-- A concrete, schema-valid user object and its validated record. -/
def userObj : Json :=
  .obj [("login", .str "octocat"), ("id", .num 1),
        ("avatar_url", .str "https://github.com/a.png"),
        ("html_url", .str "https://github.com/octocat"),
        ("type", .str "User")]

/-- The record `userObj` validates to. -/
def sampleUser : GitHubUser :=
  ⟨"octocat", 1, "https://github.com/a.png", "https://github.com/octocat", "User"⟩

/-- A concrete, schema-valid repository object. -/
def repoObj : Json :=
  .obj [("id", .num 1), ("name", .str "r"), ("full_name", .str "o/r"),
        ("html_url", .str "https://github.com/o/r"),
        ("private", .bool false), ("owner", userObj),
        ("default_branch", .str "main")]

/-- The record `repoObj` validates to. -/
def sampleRepo : GitHubRepository :=
  ⟨1, "r", "o/r", "https://github.com/o/r", none, false, sampleUser, "main"⟩

/-- A ref object complete in every other required field, with the given
sha. -/
def refObjWithSha (sha : String) : Json :=
  .obj [("ref", .str "feature"), ("sha", .str sha), ("user", userObj),
        ("label", .str "o:feature")]

/-- The record `refObjWithSha sha` validates to when `sha` has length
40. -/
def sampleRef (sha : String) : GitHubRef :=
  ⟨"feature", sha, none, sampleUser, "o:feature"⟩

/-- A commit object complete in every other required field, with the
given id. -/
def commitObjWithId (sha : String) : Json :=
  .obj [("id", .str sha), ("message", .str "m"),
        ("timestamp", .str "2024-01-01T00:00:00Z"),
        ("url", .str "https://github.com/o/r/commit"), ("author", .obj [])]

/-- A pull_request object complete in every required field, whose head
and base shas are the given string. -/
def prInnerObj (sha : String) : Json :=
  .obj [("id", .num 1), ("number", .num 7), ("state", .str "open"),
        ("title", .str "T"),
        ("html_url", .str "https://github.com/o/r/pull/7"),
        ("diff_url", .str "https://github.com/o/r/pull/7.diff"),
        ("patch_url", .str "https://github.com/o/r/pull/7.patch"),
        ("created_at", .str "2024-01-01T00:00:00Z"),
        ("updated_at", .str "2024-01-01T00:00:00Z"),
        ("user", userObj),
        ("head", refObjWithSha sha), ("base", refObjWithSha sha),
        ("merged", .bool false), ("additions", .num 1),
        ("deletions", .num 0), ("changed_files", .num 1)]

/-- A complete `pull_request` payload whose head and base shas are the
given string. -/
def prPayloadWithSha (sha : String) : Json :=
  .obj [("action", .str "opened"), ("number", .num 7),
        ("pull_request", prInnerObj sha),
        ("repository", repoObj), ("sender", userObj)]

/-- A concrete, complete pull-request record for witnesses. -/
def samplePR : PullRequest :=
  ⟨1, 42, "open", "T", none,
   "https://github.com/o/r/pull/42", "https://github.com/o/r/pull/42.diff",
   "https://github.com/o/r/pull/42.patch",
   "2024-01-01T00:00:00Z", "2024-01-01T00:00:00Z", none, none, none,
   sampleUser, sampleRef "headsha", sampleRef "basesha",
   false, none, false, 1, 0, 1⟩

end WebhookReceiver

namespace WebhookReceiver

open Jx

/-- `process_pull_request_webhook` (`app/webhook_receiver.py` lines
147-228): the response dict in insertion order, paired with whether a
background analysis task was dispatched (`background_tasks.add_task`). -/
def process_pull_request_webhook (payload : PullRequestWebhookPayload)
    (delivery_info : WebhookDeliveryInfo) : List (String × Json) × Bool :=
  if ¬payload.is_actionable then
    ([("status", .str "ignored"),
      ("message", .str ("Action '" ++ payload.action.toString ++ "' does not require analysis")),
      ("pr_number", .num payload.number)], false)
  else
    ([("status", .str "processing"),
      ("message", .str "Pull request analysis started"),
      ("pr_number", .num payload.number),
      ("action", .str payload.action.toString),
      ("delivery_id", .str delivery_info.delivery_id)], true)

/-- `process_push_webhook` (lines 231-298): push events are acknowledged
but never dispatched in this phase. -/
def process_push_webhook (payload : PushWebhookPayload)
    (delivery_info : WebhookDeliveryInfo) : List (String × Json) :=
  if ¬payload.is_branch_push then
    [("status", .str "ignored"),
     ("message", .str ("Ref '" ++ payload.ref ++ "' is not a branch"))]
  else
    [("status", .str "accepted"),
     ("message", .str "Push received"),
     ("branch", .str payload.branch_name),
     ("commits", .num (payload.commit_count : Int))]

/-- Outcome of `handle_github_webhook`: a normal (HTTP 200) response
dict, a raised `HTTPException` with status code and detail, or any
other exception escaping the function. -/
inductive HandlerOutcome where
  | ok (resp : List (String × Json))
  | httpError (code : Nat) (detail : String)
  | raised (exc : String)

/-- The HTTP answer for each outcome: FastAPI answers a return value
with 200 and an `HTTPException` with its own status code and detail;
any other exception escaping the endpoint reaches
`global_exception_handler` (`app/main.py` lines 72-107), which answers
500 with detail `Internal server error`. -/
def httpAnswer : HandlerOutcome → Nat × String
  | .ok _ => (200, "")
  | .httpError code detail => (code, detail)
  | .raised _ => (500, "Internal server error")

/-- Externally visible state changes made while handling one request:
audit entries written, idempotency records created, background tasks
dispatched. `handle_github_webhook` never invokes the audit logger or
any idempotency store, so the first two counters are 0 on every path. -/
structure HandlerEffects where
  auditEntries : Nat
  idempotencyRecords : Nat
  dispatched : Bool

/-- `handle_github_webhook` (lines 301-428). The HTTP body is modelled
as text (`bodyText`); signature verification runs over its UTF-8 bytes,
`request.json()` is `loads`. A `TypeError` raised inside
`verify_github_signature` propagates out of the function (`.raised`).
The pydantic error detail string embedded in the 400 response is
abstracted to its fixed prefix. -/
def handle_github_webhook (secret : List Char) (x_hub_signature_256 : List Char)
    (x_github_event x_github_delivery : String) (bodyText : List Char) :
    HandlerOutcome × HandlerEffects :=
  if ¬(x_github_event = "pull_request" ∨ x_github_event = "push") then
    (.ok [("status", .str "ignored"),
          ("message", .str ("Event type '" ++ x_github_event ++ "' is not handled"))],
     ⟨0, 0, false⟩)
  else
    let payload_body := Sha.utf8Bytes bodyText
    match verify_github_signatureE payload_body x_hub_signature_256 secret with
    | .error exc => (.raised exc, ⟨0, 0, false⟩)
    | .ok false => (.httpError 401 "Invalid webhook signature", ⟨0, 0, false⟩)
    | .ok true =>
      match loads bodyText with
      | none => (.httpError 400 "Invalid JSON payload", ⟨0, 0, false⟩)
      | some payload_json =>
          let delivery_info : WebhookDeliveryInfo :=
            ⟨x_github_delivery, x_github_event, x_hub_signature_256, payload_body.length⟩
          if x_github_event = "pull_request" then
            match PullRequestWebhookPayload.model_validate payload_json with
            | none => (.httpError 400 "Invalid payload structure", ⟨0, 0, false⟩)
            | some payload =>
                let r := process_pull_request_webhook payload delivery_info
                (.ok r.1, ⟨0, 0, r.2⟩)
          else if x_github_event = "push" then
            match PushWebhookPayload.model_validate payload_json with
            | none => (.httpError 400 "Invalid payload structure", ⟨0, 0, false⟩)
            | some payload =>
                (.ok (process_push_webhook payload delivery_info), ⟨0, 0, false⟩)
          else
            (.ok [("status", .str "ignored"),
                  ("message", .str ("Event type '" ++ x_github_event ++ "' is not handled"))],
             ⟨0, 0, false⟩)

end WebhookReceiver

namespace WebhookReceiver

open Jx

/-- C3 (counterexample): an unsupported event type (`issues`) with a
signature header that fails verification is answered 200/ignored, not
401 -- the event-type check precedes signature verification, so the
claim's "any event type" is false. -/
theorem invalid_signature_unsupported_event_cex :
    verify_github_signatureE (Sha.utf8Bytes "\x7b\x7d".data) ("bad".data) ("s".data) =
      .ok false ∧
    handle_github_webhook ("s".data) ("bad".data) "issues" "d1" ("\x7b\x7d".data) =
      (.ok [("status", .str "ignored"),
            ("message", .str "Event type 'issues' is not handled")], ⟨0, 0, false⟩) := by
  constructor
  · rfl
  · rfl

/-- C3 (amended): for the handled event types (`pull_request`, `push`),
a request on which signature verification returns `False` is rejected
with HTTP 401 and detail `Invalid webhook signature`, with no state
change (no audit entry, no idempotency record, no dispatch); but a
request whose non-ASCII signature header makes `hmac.compare_digest`
raise `TypeError` is not answered 401: the exception escapes the
handler, again with no state change, and `main.py`'s global exception
handler answers 500 `Internal server error`. For any other event type
the request is answered 200/ignored without the signature being
verified. -/
theorem invalid_signature_rejected (secret header : List Char)
    (event delivery : String) (bodyText : List Char)
    (hev : event = "pull_request" ∨ event = "push") :
    (verify_github_signatureE (Sha.utf8Bytes bodyText) header secret = .ok false →
      handle_github_webhook secret header event delivery bodyText =
        (.httpError 401 "Invalid webhook signature", ⟨0, 0, false⟩)) ∧
    (∀ exc, verify_github_signatureE (Sha.utf8Bytes bodyText) header secret = .error exc →
      handle_github_webhook secret header event delivery bodyText =
        (.raised exc, ⟨0, 0, false⟩) ∧
      httpAnswer (handle_github_webhook secret header event delivery bodyText).1 =
        (500, "Internal server error")) := by
  constructor
  · intro hsig
    unfold handle_github_webhook
    rw [if_neg (by simp [hev])]
    simp only [hsig]
  · intro exc hsig
    have hh : handle_github_webhook secret header event delivery bodyText =
        (.raised exc, ⟨0, 0, false⟩) := by
      unfold handle_github_webhook
      rw [if_neg (by simp [hev])]
      simp only [hsig]
    exact ⟨hh, by rw [hh]; rfl⟩

/-- Witness for `invalid_signature_rejected`: a `pull_request` delivery
whose header lacks the `sha256=` prefix (401), and one whose header has
a non-ASCII part after `"sha256="` (escaped `TypeError`, answered 500). -/
theorem invalid_signature_rejected_witness :
    handle_github_webhook ("s".data) ("bad".data) "pull_request" "d1" ("\x7b\x7d".data) =
      (.httpError 401 "Invalid webhook signature", ⟨0, 0, false⟩) ∧
    (handle_github_webhook ("s".data) nonAsciiHeader "pull_request" "d1" ("\x7b\x7d".data) =
       (.raised "TypeError", ⟨0, 0, false⟩) ∧
     httpAnswer (handle_github_webhook ("s".data) nonAsciiHeader "pull_request" "d1"
         ("\x7b\x7d".data)).1 = (500, "Internal server error")) :=
  ⟨(invalid_signature_rejected ("s".data) ("bad".data) "pull_request" "d1"
      ("\x7b\x7d".data) (Or.inl rfl)).1 rfl,
   (invalid_signature_rejected ("s".data) nonAsciiHeader "pull_request" "d1"
      ("\x7b\x7d".data) (Or.inl rfl)).2 "TypeError" rfl⟩

end WebhookReceiver

namespace WebhookReceiver

open Jx

/-- C4 (amended): `handle_github_webhook` writes no audit entry on any
path -- the `WebhookAuditor` module exists but is never invoked from the
request path, so the control flow never passes through the audit logger. -/
theorem handler_never_audits (secret header : List Char)
    (event delivery : String) (bodyText : List Char) :
    (handle_github_webhook secret header event delivery bodyText).2.auditEntries = 0 := by
  simp only [handle_github_webhook]
  repeat' split
  all_goals rfl

set_option maxRecDepth 1000000 in
/-- C4 (counterexample): a concrete push delivery that passes signature
verification is handled without any audit entry being appended, refuting
"exactly one audit entry per verified delivery". -/
theorem verified_delivery_without_audit :
    verify_github_signature (Sha.utf8Bytes "\x7b\x7d".data)
      (signPayload (Sha.utf8Bytes "\x7b\x7d".data) ("s".data)) ("s".data) = true ∧
    (handle_github_webhook ("s".data)
        (signPayload (Sha.utf8Bytes "\x7b\x7d".data) ("s".data))
        "push" "d1" ("\x7b\x7d".data)).2.auditEntries ≠ 1 ∧
    (handle_github_webhook ("s".data)
        (signPayload (Sha.utf8Bytes "\x7b\x7d".data) ("s".data))
        "push" "d1" ("\x7b\x7d".data)).2.auditEntries = 0 := by
  have hzero : (handle_github_webhook ("s".data)
      (signPayload (Sha.utf8Bytes "\x7b\x7d".data) ("s".data))
      "push" "d1" ("\x7b\x7d".data)).2.auditEntries = 0 := by
    simp only [handle_github_webhook]
    repeat' split
    all_goals rfl
  refine ⟨(verify_signPayload _ _ _ _).mpr rfl, ?_, hzero⟩
  intro h
  rw [hzero] at h
  exact Nat.noConfusion h

end WebhookReceiver

namespace WebhookReceiver

open Jx

/-- C5: router action table for `pull_request` deliveries. Actions
`opened`/`synchronize` yield a `processing` response carrying message,
pr_number, action and delivery_id, and dispatch a background task; every
other action yields an `ignored` response with a human-readable reason
and the pr_number, and dispatches nothing. -/
theorem pr_router_action_table (p : PullRequestWebhookPayload) (d : WebhookDeliveryInfo) :
    ((p.action = .opened ∨ p.action = .synchronize) →
      process_pull_request_webhook p d =
        ([("status", .str "processing"),
          ("message", .str "Pull request analysis started"),
          ("pr_number", .num p.number),
          ("action", .str p.action.toString),
          ("delivery_id", .str d.delivery_id)], true)) ∧
    (p.action ≠ .opened → p.action ≠ .synchronize →
      process_pull_request_webhook p d =
        ([("status", .str "ignored"),
          ("message", .str ("Action '" ++ p.action.toString ++ "' does not require analysis")),
          ("pr_number", .num p.number)], false)) := by
  constructor
  · intro h
    rcases h with h | h <;>
      simp [process_pull_request_webhook, PullRequestWebhookPayload.is_actionable, h]
  · intro h1 h2
    simp [process_pull_request_webhook, PullRequestWebhookPayload.is_actionable, h1, h2]

/-- Witness for `pr_router_action_table` at an `opened` and a `labeled`
delivery. -/
theorem pr_router_action_table_witness :
    process_pull_request_webhook ⟨.opened, 42, samplePR, sampleRepo, sampleUser⟩
        ⟨"del-1", "pull_request", [], 2⟩ =
      ([("status", .str "processing"),
        ("message", .str "Pull request analysis started"),
        ("pr_number", .num 42),
        ("action", .str "opened"),
        ("delivery_id", .str "del-1")], true) ∧
    process_pull_request_webhook ⟨.labeled, 42, samplePR, sampleRepo, sampleUser⟩
        ⟨"del-1", "pull_request", [], 2⟩ =
      ([("status", .str "ignored"),
        ("message", .str "Action 'labeled' does not require analysis"),
        ("pr_number", .num 42)], false) :=
  ⟨(pr_router_action_table _ _).1 (Or.inl rfl),
   (pr_router_action_table _ _).2 (by decide) (by decide)⟩

/-- A non-hex 40-character commit sha. -/
def zSha : String := String.mk (List.replicate 40 'z')

/-- A complete `pull_request` payload whose head and base shas are the
non-hex `zSha`. -/
def nonHexShaPayload : Json := prPayloadWithSha zSha

set_option maxRecDepth 100000 in
/-- C6 (counterexample): the sha constraint is `min_length=40,
max_length=40` only -- a 40-character string of `z`s is not hexadecimal,
yet validation of a payload complete in every required field accepts it
and produces an event object. -/
theorem sha_hex_not_checked_cex :
    zSha.length = 40 ∧
    zSha.data.all isLowerHexDigit = false ∧
    ∃ p, PullRequestWebhookPayload.model_validate nonHexShaPayload = some p ∧
         p.pull_request.head.sha = zSha := by
  refine ⟨rfl, rfl, ⟨_, rfl, rfl⟩⟩

/-- A successfully parsed nested-model field comes from a successful
validation of the field's JSON value. -/
theorem getModel_some {α : Type} (f : Json → Option α) (j : Json) (k : String) (a : α)
    (h : getModel f j k = some a) : ∃ jj, f jj = some a := by
  unfold getModel at h
  cases hg : WebhookAudit.getField j k with
  | none => rw [hg] at h; exact Option.noConfusion h
  | some jj => rw [hg] at h; exact ⟨jj, h⟩

/-- Every ref record produced by validation has a length-40 sha. -/
theorem ref_validate_sha_length (j : Json) (r : GitHubRef)
    (h : GitHubRef.model_validate j = some r) : r.sha.length = 40 := by
  simp only [GitHubRef.model_validate] at h
  split at h
  · split at h
    · rename_i hc
      injection h with h2
      subst h2
      exact eq_of_beq hc
    · exact Option.noConfusion h
  · exact Option.noConfusion h

/-- Every commit record produced by validation has a length-40 id. -/
theorem commit_validate_id_length (j : Json) (c : Commit)
    (h : Commit.model_validate j = some c) : c.id.length = 40 := by
  simp only [Commit.model_validate] at h
  split at h
  · split at h
    · rename_i hc
      injection h with h2
      subst h2
      exact eq_of_beq hc
    · exact Option.noConfusion h
  · exact Option.noConfusion h

/-- Every pull-request record produced by validation has length-40 head
and base shas. -/
theorem pr_validate_sha_length (j : Json) (pr : PullRequest)
    (h : PullRequest.model_validate j = some pr) :
    pr.head.sha.length = 40 ∧ pr.base.sha.length = 40 := by
  simp only [PullRequest.model_validate] at h
  split at h
  · split at h
    · injection h with h2
      subst h2
      constructor
      · obtain ⟨jh, hjh⟩ :=
          getModel_some GitHubRef.model_validate j "head" _ (by assumption)
        exact ref_validate_sha_length jh _ hjh
      · obtain ⟨jb, hjb⟩ :=
          getModel_some GitHubRef.model_validate j "base" _ (by assumption)
        exact ref_validate_sha_length jb _ hjb
    · exact Option.noConfusion h
  · exact Option.noConfusion h

/-- Every commit list produced by element-wise validation consists of
validated commits. -/
theorem validateCommits_mem (cs : List Json) (out : List Commit)
    (h : validateCommits cs = some out) :
    ∀ c ∈ out, ∃ jc, Commit.model_validate jc = some c := by
  induction cs generalizing out with
  | nil =>
      unfold validateCommits at h
      injection h with h2
      subst h2
      intro c hc
      exact absurd hc (List.not_mem_nil c)
  | cons x xs ih =>
      unfold validateCommits at h
      split at h
      · rename_i cx cxs hx hxs
        injection h with h2
        subst h2
        intro c hc
        rcases List.mem_cons.mp hc with rfl | hmem
        · exact ⟨x, hx⟩
        · exact ih cxs hxs c hmem
      · exact Option.noConfusion h

set_option maxRecDepth 100000 in
/-- C6 (amended): ref and commit sha validation enforces exactly
"length 40" and nothing about the characters: over objects complete in
every other required field, a ref or commit validates iff its sha has
length 40, and every event object that validation produces -- from any
payload whatsoever -- carries only length-40 sha strings, so a payload
with a sha of another length is rejected and no event object is
produced. Hexadecimal-ness is never checked. -/
theorem sha_validation_length_only (sha : String) :
    (GitHubRef.model_validate (refObjWithSha sha) ≠ none ↔ sha.length = 40) ∧
    (Commit.model_validate (commitObjWithId sha) ≠ none ↔ sha.length = 40) ∧
    (∀ j p, PullRequestWebhookPayload.model_validate j = some p →
      p.pull_request.head.sha.length = 40 ∧ p.pull_request.base.sha.length = 40) ∧
    (∀ j q, PushWebhookPayload.model_validate j = some q →
      q.before.length = 40 ∧ q.after.length = 40 ∧
      ∀ c ∈ q.commits, c.id.length = 40) := by
  refine ⟨?_, ?_, ?_, ?_⟩
  · show (if sha.length == 40 then some (sampleRef sha) else none) ≠ none ↔
      sha.length = 40
    by_cases h : sha.length = 40
    · simp [h]
    · simp [h]
  · show (if sha.length == 40 then
        some (⟨sha, "m", "2024-01-01T00:00:00Z", "https://github.com/o/r/commit",
               [], [], [], []⟩ : Commit) else none) ≠ none ↔ sha.length = 40
    by_cases h : sha.length = 40
    · simp [h]
    · simp [h]
  · intro j p hp
    simp only [PullRequestWebhookPayload.model_validate] at hp
    split at hp
    · split at hp
      · injection hp with h2
        subst h2
        obtain ⟨jp, hjp⟩ :=
          getModel_some PullRequest.model_validate j "pull_request" _ (by assumption)
        exact pr_validate_sha_length jp _ hjp
      · exact Option.noConfusion hp
    · exact Option.noConfusion hp
  · intro j q hq
    simp only [PushWebhookPayload.model_validate] at hq
    split at hq
    · split at hq
      · rename_i hlen
        split at hq
        · injection hq with h2
          subst h2
          simp only [Bool.and_eq_true] at hlen
          refine ⟨eq_of_beq hlen.1, eq_of_beq hlen.2, ?_⟩
          intro c hc
          obtain ⟨jc, hjc⟩ := validateCommits_mem _ _ (by assumption) c hc
          exact commit_validate_id_length jc c hjc
        · exact Option.noConfusion hq
      · exact Option.noConfusion hq
    · exact Option.noConfusion hq

/-- C10: for a branch push, the `branch` field of the accepted response
is only the final `/`-separated segment of the ref -- in particular
`refs/heads/feature/login` reports branch `login`, not `feature/login`. -/
theorem push_branch_last_segment (p : PushWebhookPayload) (d : WebhookDeliveryInfo)
    (h : p.is_branch_push = true) :
    process_push_webhook p d =
      [("status", .str "accepted"), ("message", .str "Push received"),
       ("branch", .str (String.mk ((pySplitSlash p.ref.data).getLastD []))),
       ("commits", .num (p.commit_count : Int))] ∧
    String.mk ((pySplitSlash ("refs/heads/feature/login".data)).getLastD []) = "login" ∧
    ("login" : String) ≠ "feature/login" := by
  refine ⟨?_, rfl, by decide⟩
  simp [process_push_webhook, h, PushWebhookPayload.branch_name]

/-- Witness for `push_branch_last_segment` at a concrete payload with a
slash in the branch name. -/
theorem push_branch_last_segment_witness :
    (⟨"refs/heads/feature/login", "b", "a", sampleRepo, [], sampleUser, [], none,
        "https://github.com/o/r/compare"⟩ :
        PushWebhookPayload).is_branch_push = true ∧
    process_push_webhook
        ⟨"refs/heads/feature/login", "b", "a", sampleRepo, [], sampleUser, [], none,
         "https://github.com/o/r/compare"⟩
        ⟨"del-2", "push", [], 2⟩ =
      [("status", .str "accepted"), ("message", .str "Push received"),
       ("branch", .str "login"), ("commits", .num 0)] := by
  have h := push_branch_last_segment
    ⟨"refs/heads/feature/login", "b", "a", sampleRepo, [], sampleUser, [], none,
     "https://github.com/o/r/compare"⟩
    ⟨"del-2", "push", [], 2⟩ rfl
  exact ⟨rfl, by rw [h.1]; rfl⟩

end WebhookReceiver
